import Mathlib

/-!
Verification of the multi-agent builder-swarm coordination engine.

The definitions below are a shallow embedding of the TypeScript sources:
the task manager (src/swarm/task-manager.ts), the checkpointer, the JSON
salvager (src/llm/json-parser.ts), the worker tool loop, the LLM transport
retry logic, the tool dispatcher (src/tools/index.ts) and the rate limiter.
Machine numbers are modeled as Nat/Int, JavaScript exceptions as Except,
and asynchronous interleavings as explicit step relations.
-/

set_option maxHeartbeats 1000000

namespace Swarm

/-- Subtask lifecycle status, from `SubtaskStatus` in src/types.ts. -/
inductive SubtaskStatus
  | pending
  | in_progress
  | completed
  | failed
  | needs_revision
  deriving DecidableEq, Repr

/-- A subtask record, from the `Subtask` interface in src/types.ts. -/
structure Subtask where
  id : String
  title : String
  description : String
  dependencies : List String
  assignedWorker : Option Nat
  status : SubtaskStatus
  result : Option String
  artifacts : List String
  attempts : Nat
  feedback : Option String
  deriving DecidableEq, Repr

/-- Worker outcome status, from the `WorkerResult` interface in src/types.ts. -/
inductive WorkerStatus
  | completed
  | failed
  deriving DecidableEq, Repr

/-- A worker's result for one subtask, from the `WorkerResult` interface in src/types.ts. -/
structure WorkerResult where
  subtaskId : String
  status : WorkerStatus
  summary : String
  artifacts : List String
  error : Option String
  deriving DecidableEq, Repr

/-- Review verdicts, from the `ReviewDecision` interface in src/types.ts. -/
inductive Verdict
  | accept
  | revise
  | reassign
  deriving DecidableEq, Repr

/-- One orchestrator review decision, from the `ReviewDecision` interface in src/types.ts. -/
structure ReviewDecision where
  subtaskId : String
  verdict : Verdict
  feedback : Option String
  deriving DecidableEq, Repr

/-- One planned subtask as produced by the orchestrator LLM,
from the `TaskPlan` interface in src/types.ts. -/
structure PlanItem where
  title : String
  description : String
  dependencies : List String
  deriving DecidableEq, Repr

/-- `TaskManager.getReadySubtasks` (src/swarm/task-manager.ts lines 56-65):
keep the pending subtasks all of whose dependency ids look up
(via `Array.find`, first match) to a subtask with status completed. -/
def getReadySubtasks (subtasks : List Subtask) : List Subtask :=
  subtasks.filter fun subtask =>
    decide (subtask.status = SubtaskStatus.pending) &&
    subtask.dependencies.all fun depId =>
      match subtasks.find? (fun t => decide (t.id = depId)) with
      | some dep => decide (dep.status = SubtaskStatus.completed)
      | none => false

/-- In-place mutation of the first list element satisfying `p`; this is how
`this.ctx.subtasks.find(...)` followed by field assignments acts on the
context's subtask array. A list with no match is returned unchanged. -/
def updateFirst (p : Subtask → Bool) (f : Subtask → Subtask) : List Subtask → List Subtask
  | [] => []
  | x :: xs => if p x then f x :: xs else x :: updateFirst p f xs

/-- Field updates applied by `TaskManager.applyWorkerResult`
(src/swarm/task-manager.ts lines 77-96) to the matched subtask.
`maxAttempts` is `getRuntimeConfig().MAX_SUBTASK_ATTEMPTS` (default 3). -/
def applyWorkerResultSubtask (maxAttempts : Nat) (result : WorkerResult) (subtask : Subtask) :
    Subtask :=
  let subtask := { subtask with
    result := some (result.summary.take 2000)
    artifacts := subtask.artifacts ++ result.artifacts }
  if result.status = WorkerStatus.completed then
    { subtask with status := SubtaskStatus.completed }
  else
    let subtask := { subtask with attempts := subtask.attempts + 1 }
    if maxAttempts ≤ subtask.attempts then
      { subtask with status := SubtaskStatus.failed }
    else
      { subtask with
        status := SubtaskStatus.pending
        feedback := some (result.error.getD "Worker failed, please retry") }

/-- `TaskManager.applyWorkerResult` (src/swarm/task-manager.ts lines 77-96):
mutate the first subtask whose id matches `result.subtaskId`; no-op when absent. -/
def applyWorkerResult (maxAttempts : Nat) (subtasks : List Subtask) (result : WorkerResult) :
    List Subtask :=
  updateFirst (fun t => decide (t.id = result.subtaskId))
    (applyWorkerResultSubtask maxAttempts result) subtasks

/-- Field updates applied by one decision inside `TaskManager.applyReviewDecisions`
(src/swarm/task-manager.ts lines 98-122) to the matched subtask. -/
def applyDecisionSubtask (maxAttempts : Nat) (decision : ReviewDecision) (subtask : Subtask) :
    Subtask :=
  match decision.verdict with
  | Verdict.accept => { subtask with status := SubtaskStatus.completed }
  | Verdict.revise =>
    let subtask := { subtask with
      status := SubtaskStatus.pending
      feedback := some (decision.feedback.getD "Please revise your work.")
      attempts := subtask.attempts + 1 }
    if maxAttempts ≤ subtask.attempts then
      { subtask with status := SubtaskStatus.failed }
    else subtask
  | Verdict.reassign => { subtask with
      status := SubtaskStatus.pending
      assignedWorker := none
      feedback := some (decision.feedback.getD "Reassigned to a different worker.") }

/-- `TaskManager.applyReviewDecisions` (src/swarm/task-manager.ts lines 98-122):
apply each decision in order to the first subtask with a matching id. -/
def applyReviewDecisions (maxAttempts : Nat) (subtasks : List Subtask)
    (decisions : List ReviewDecision) : List Subtask :=
  decisions.foldl
    (fun st d =>
      updateFirst (fun t => decide (t.id = d.subtaskId)) (applyDecisionSubtask maxAttempts d) st)
    subtasks

/-- Leading decimal digits of a character list, if any; helper for `jsParseInt`. -/
def digitsPrefixVal (cs : List Char) : Option Nat :=
  let ds := cs.takeWhile Char.isDigit
  if ds = [] then none
  else some (ds.foldl (fun acc c => 10 * acc + (c.toNat - 48)) 0)

/-- JavaScript `parseInt(s, 10)`: skip leading whitespace, optional sign,
then as many decimal digits as possible; NaN (here: none) when no digits. -/
def jsParseInt (s : String) : Option Int :=
  let cs := s.toList.dropWhile fun c => c == ' ' || c == '\t' || c == '\n' || c == '\r'
  match cs with
  | '-' :: rest => (digitsPrefixVal rest).map fun n => -(n : Int)
  | '+' :: rest => (digitsPrefixVal rest).map fun n => (n : Int)
  | _ => (digitsPrefixVal cs).map fun n => (n : Int)

/-- Dependency-token resolution inside `TaskManager.addSubtasksFromPlan`
(src/swarm/task-manager.ts lines 22-38): first a title match against another
plan item, then a title match against existing context subtasks, then a
numeric index into the plan; otherwise the empty string (filtered out below).
`idMap` gives the fresh uuid assigned to each plan index; the source's
`idMap.has` checks always succeed for indices below the plan length. -/
def resolveDepToken (idMap : Nat → String) (planItems : List PlanItem)
    (ctxSubtasks : List Subtask) (i : Nat) (dep : String) : String :=
  match planItems.enum.find? (fun jt => decide (jt.2.title = dep) && decide (jt.1 ≠ i)) with
  | some jt => idMap jt.1
  | none =>
    match ctxSubtasks.find? (fun t => decide (t.title = dep)) with
    | some existing => existing.id
    | none =>
      match jsParseInt dep with
      | some d => if 0 ≤ d ∧ d.toNat < planItems.length then idMap d.toNat else ""
      | none => ""

/-- The fresh subtask built from plan item `i` by `addSubtasksFromPlan`
(src/swarm/task-manager.ts lines 18-46): fresh id, resolved dependencies
with empty tokens filtered out (`.filter(Boolean)`), status pending, zero attempts. -/
def mkPlannedSubtask (idMap : Nat → String) (planItems : List PlanItem)
    (ctxSubtasks : List Subtask) (i : Nat) (item : PlanItem) : Subtask :=
  { id := idMap i
    title := item.title
    description := item.description
    dependencies :=
      (item.dependencies.map (resolveDepToken idMap planItems ctxSubtasks i)).filter
        fun s => decide (s ≠ "")
    assignedWorker := none
    status := SubtaskStatus.pending
    result := none
    artifacts := []
    attempts := 0
    feedback := none }

/-- The push loop of `addSubtasksFromPlan`: each new subtask is appended before
the next one resolves its dependencies (existing-title lookups see earlier pushes). -/
def addSubtasksGo (idMap : Nat → String) (planItems : List PlanItem) :
    List Subtask → List (Nat × PlanItem) → List Subtask
  | ctx, [] => ctx
  | ctx, (i, item) :: rest =>
    addSubtasksGo idMap planItems (ctx ++ [mkPlannedSubtask idMap planItems ctx i item]) rest

/-- `TaskManager.addSubtasksFromPlan` (src/swarm/task-manager.ts lines 8-49),
parameterized by the uuid generator `idMap` (index to fresh uuid). -/
def addSubtasksFromPlan (idMap : Nat → String) (subtasks : List Subtask)
    (planItems : List PlanItem) : List Subtask :=
  addSubtasksGo idMap planItems subtasks planItems.enum

/-- One task-manager mutating call, for stating sequence invariants. -/
inductive TaskOp
  | plan (idMap : Nat → String) (items : List PlanItem)
  | work (result : WorkerResult)
  | review (decisions : List ReviewDecision)

/-- Dispatch one task-manager call on the context's subtask list. -/
def applyTaskOp (maxAttempts : Nat) (subtasks : List Subtask) : TaskOp → List Subtask
  | TaskOp.plan idMap items => addSubtasksFromPlan idMap subtasks items
  | TaskOp.work r => applyWorkerResult maxAttempts subtasks r
  | TaskOp.review ds => applyReviewDecisions maxAttempts subtasks ds

/-- Run a sequence of task-manager calls starting from a fresh (empty) context. -/
def runTaskOps (maxAttempts : Nat) (ops : List TaskOp) : List Subtask :=
  ops.foldl (applyTaskOp maxAttempts) []

/-- Lookup of a subtask by id, as `this.ctx.subtasks.find((t) => t.id === id)`. -/
def findSubtask (subtasks : List Subtask) (id : String) : Option Subtask :=
  subtasks.find? fun t => decide (t.id = id)

/-- An operation target is live when the id either matches no subtask or matches a
subtask that is not already failed. Operations on failed subtasks are exactly the
ones the orchestrator never issues (it dispatches only ready subtasks and reviews
only the dispatched batch). -/
def targetsLive (subtasks : List Subtask) (id : String) : Bool :=
  match findSubtask subtasks id with
  | some t => decide (t.status ≠ SubtaskStatus.failed)
  | none => true

/-- Every decision in the list targets a live subtask at the moment it is applied. -/
def decisionsOk (maxAttempts : Nat) : List Subtask → List ReviewDecision → Bool
  | _, [] => true
  | st, d :: ds =>
    targetsLive st d.subtaskId &&
    decisionsOk maxAttempts
      (updateFirst (fun t => decide (t.id = d.subtaskId)) (applyDecisionSubtask maxAttempts d) st)
      ds

/-- One operation only touches live subtasks. -/
def opOk (maxAttempts : Nat) (st : List Subtask) : TaskOp → Bool
  | TaskOp.plan _ _ => true
  | TaskOp.work r => targetsLive st r.subtaskId
  | TaskOp.review ds => decisionsOk maxAttempts st ds

/-- Every operation in the sequence only touches subtasks that are live when it runs. -/
def opsOk (maxAttempts : Nat) : List Subtask → List TaskOp → Bool
  | _, [] => true
  | st, op :: ops => opOk maxAttempts st op && opsOk maxAttempts (applyTaskOp maxAttempts st op) ops

/-- The attempts-cap invariant: a subtask over the cap must be failed. -/
def AttemptsCapped (maxAttempts : Nat) (subtasks : List Subtask) : Prop :=
  ∀ s ∈ subtasks, maxAttempts < s.attempts → s.status = SubtaskStatus.failed

/-- Positionwise monotonicity of the attempts counters between two context snapshots.
Subtasks are never deleted or reordered, so list position identifies a subtask. -/
def AttemptsMono (older newer : List Subtask) : Prop :=
  ∀ n x, older.get? n = some x → ∃ y, newer.get? n = some y ∧ x.attempts ≤ y.attempts

/-- A worker result reporting failure for subtask id "a". -/
def cexWorkFail : WorkerResult :=
  { subtaskId := "a", status := WorkerStatus.failed, summary := "", artifacts := [], error := none }

/-- A reassign review decision for subtask id "a". -/
def cexReassign : ReviewDecision := { subtaskId := "a", verdict := Verdict.reassign, feedback := none }

/-- A revise review decision for subtask id "a". -/
def cexRevise : ReviewDecision := { subtaskId := "a", verdict := Verdict.revise, feedback := none }

/-- A one-item plan. -/
def cexPlanItem : PlanItem := { title := "A", description := "", dependencies := [] }

/-- A subtask that has exhausted its attempts and is marked failed. -/
def cexFailedSub : Subtask :=
  { id := "a", title := "A", description := "", dependencies := [], assignedWorker := none
    status := SubtaskStatus.failed, result := none, artifacts := [], attempts := 3, feedback := none }

/-- Call sequence exercising the reassign escape hatch: three worker failures drive the
subtask to failed with attempts 3; a reassign puts it back to pending; a fourth failure
pushes attempts to 4 (failed); a final reassign leaves attempts 4 with status pending. -/
def opsC2cex : List TaskOp :=
  [TaskOp.plan (fun _ => "a") [cexPlanItem],
   TaskOp.work cexWorkFail, TaskOp.work cexWorkFail, TaskOp.work cexWorkFail,
   TaskOp.review [cexReassign],
   TaskOp.work cexWorkFail,
   TaskOp.review [cexReassign]]

/-- A live-target call sequence: plan one subtask, one worker failure, one revise. -/
def opsC2wit : List TaskOp :=
  [TaskOp.plan (fun _ => "a") [cexPlanItem],
   TaskOp.work cexWorkFail,
   TaskOp.review [cexRevise]]

/-- Status strings as serialized into `.swarm-checkpoint.json` by `JSON.stringify`. -/
def statusToJson : SubtaskStatus → String
  | SubtaskStatus.pending => "pending"
  | SubtaskStatus.in_progress => "in_progress"
  | SubtaskStatus.completed => "completed"
  | SubtaskStatus.failed => "failed"
  | SubtaskStatus.needs_revision => "needs_revision"

/-- The JSON shape of one subtask inside the checkpoint file: the status travels as a
plain string (the loader compares it against the literal "in_progress"); every other
field serializes structurally. -/
structure StoredSubtask where
  id : String
  title : String
  description : String
  dependencies : List String
  assignedWorker : Option Nat
  status : String
  result : Option String
  artifacts : List String
  attempts : Nat
  feedback : Option String
  deriving DecidableEq, Repr

/-- Serialization of one subtask into the checkpoint file. -/
def encodeSubtask (s : Subtask) : StoredSubtask :=
  { id := s.id, title := s.title, description := s.description
    dependencies := s.dependencies, assignedWorker := s.assignedWorker
    status := statusToJson s.status, result := s.result, artifacts := s.artifacts
    attempts := s.attempts, feedback := s.feedback }

/-- The project context (`ProjectContext` in src/types.ts); orchestrator messages are
kept abstract as strings because the checkpointer never serializes them. -/
structure ProjectContext where
  id : String
  rootDir : String
  taskDescription : String
  subtasks : List Subtask
  orchestratorMessages : List String

/-- Contents of `.swarm-checkpoint.json` as written by `saveCheckpoint`: id, rootDir,
taskDescription, subtasks and a timestamp; orchestrator messages are deliberately
not saved (they are rebuilt on resume). -/
structure Checkpoint where
  id : String
  rootDir : String
  taskDescription : String
  subtasks : List StoredSubtask
  savedAt : String
  deriving DecidableEq, Repr

/-- `saveCheckpoint` from the checkpoint module (lines 7-18); `savedAt` stands for
`new Date().toISOString()`. -/
def saveCheckpoint (ctx : ProjectContext) (savedAt : String) : Checkpoint :=
  { id := ctx.id, rootDir := ctx.rootDir, taskDescription := ctx.taskDescription
    subtasks := ctx.subtasks.map encodeSubtask, savedAt := savedAt }

/-- The context as rebuilt by `loadCheckpoint`: the parsed subtask objects plus an
empty orchestrator conversation. -/
structure RestoredContext where
  id : String
  rootDir : String
  taskDescription : String
  subtasks : List StoredSubtask
  orchestratorMessages : List String
  deriving DecidableEq, Repr

/-- The in-progress reset inside `loadCheckpoint` (lines 28-33): a subtask found with
status "in_progress" was interrupted and is forced back to "pending". -/
def fixInterrupted (s : StoredSubtask) : StoredSubtask :=
  if s.status = "in_progress" then { s with status := "pending" } else s

/-- `loadCheckpoint` from the checkpoint module (lines 20-45). The `Option Checkpoint`
input models `fs.existsSync` plus `JSON.parse`: `none` covers both a missing
checkpoint file and contents that throw on parse, the two paths where the source
returns null. -/
def loadCheckpoint : Option Checkpoint → Option RestoredContext
  | none => none
  | some data =>
    some { id := data.id, rootDir := data.rootDir, taskDescription := data.taskDescription
           subtasks := data.subtasks.map fixInterrupted, orchestratorMessages := [] }

/-- JSON values as produced by `JSON.parse`. A number keeps its literal spelling;
the claims only ever compare values parsed from identical literals. -/
inductive Json
  | null
  | bool (b : Bool)
  | num (lit : String)
  | str (s : String)
  | arr (elems : List Json)
  | obj (members : List (String × Json))
  deriving Repr

/-- JSON's own whitespace set (space, tab, line feed, carriage return). -/
def jsonWsChar (c : Char) : Bool :=
  c == ' ' || c == '\t' || c == '\n' || c == '\r'

/-- Skip JSON whitespace. -/
def skipJWs (cs : List Char) : List Char := cs.dropWhile jsonWsChar

/-- Whitespace for JavaScript `String.trim` and the regex class `\s`, restricted to
the ASCII whitespace that can occur in the texts at hand. -/
def jsWsChar (c : Char) : Bool :=
  c == ' ' || c == '\t' || c == '\n' || c == '\r' || c == '\x0b' || c == '\x0c'

/-- JavaScript `String.prototype.trim`. -/
def trimChars (cs : List Char) : List Char :=
  ((cs.dropWhile jsWsChar).reverse.dropWhile jsWsChar).reverse

/-- Hexadecimal digit test. -/
def isHexDigitChar (c : Char) : Bool :=
  c.isDigit || (97 ≤ c.toNat && c.toNat ≤ 102) || (65 ≤ c.toNat && c.toNat ≤ 70)

/-- Value of a hexadecimal digit. -/
def hexVal (c : Char) : Nat :=
  if c.isDigit then c.toNat - 48
  else if 97 ≤ c.toNat then c.toNat - 87
  else c.toNat - 55

/-- String body parser for `JSON.parse`, after the opening quote: decode the escape
sequences, reject unescaped control characters, return the decoded content together
with the remainder following the closing quote. -/
def parseJStringRest : List Char → Option (List Char × List Char)
  | [] => none
  | c :: rest =>
    if c == '"' then some ([], rest)
    else if c == '\\' then
      match rest with
      | [] => none
      | e :: rest2 =>
        if e == '"' then (parseJStringRest rest2).map fun p => ('"' :: p.1, p.2)
        else if e == '\\' then (parseJStringRest rest2).map fun p => ('\\' :: p.1, p.2)
        else if e == '/' then (parseJStringRest rest2).map fun p => ('/' :: p.1, p.2)
        else if e == 'b' then (parseJStringRest rest2).map fun p => ('\x08' :: p.1, p.2)
        else if e == 'f' then (parseJStringRest rest2).map fun p => ('\x0c' :: p.1, p.2)
        else if e == 'n' then (parseJStringRest rest2).map fun p => ('\n' :: p.1, p.2)
        else if e == 'r' then (parseJStringRest rest2).map fun p => ('\r' :: p.1, p.2)
        else if e == 't' then (parseJStringRest rest2).map fun p => ('\t' :: p.1, p.2)
        else if e == 'u' then
          match rest2 with
          | h1 :: h2 :: h3 :: h4 :: rest5 =>
            if isHexDigitChar h1 && isHexDigitChar h2 && isHexDigitChar h3 && isHexDigitChar h4 then
              (parseJStringRest rest5).map fun p =>
                (Char.ofNat (4096 * hexVal h1 + 256 * hexVal h2 + 16 * hexVal h3 + hexVal h4)
                  :: p.1, p.2)
            else none
          | _ => none
        else none
    else if c.toNat < 32 then none
    else (parseJStringRest rest).map fun p => (c :: p.1, p.2)

/-- Split a character list into its leading digit run and the rest. -/
def digitSpan (cs : List Char) : List Char × List Char :=
  (cs.takeWhile Char.isDigit, cs.dropWhile Char.isDigit)

/-- Optional exponent part of a JSON number. -/
def parseJExp (cs : List Char) : Option (List Char × List Char) :=
  match cs with
  | [] => some ([], [])
  | c :: rest =>
    if c == 'e' || c == 'E' then
      let signAndRest :=
        match rest with
        | s :: r => if s == '+' || s == '-' then ([s], r) else (([] : List Char), rest)
        | [] => (([] : List Char), rest)
      let ds := digitSpan signAndRest.2
      if ds.1 = [] then none else some (c :: signAndRest.1 ++ ds.1, ds.2)
    else some ([], cs)

/-- Optional fraction part of a JSON number. -/
def parseJFrac (cs : List Char) : Option (List Char × List Char) :=
  match cs with
  | '.' :: rest =>
    let ds := digitSpan rest
    if ds.1 = [] then none else some ('.' :: ds.1, ds.2)
  | _ => some ([], cs)

/-- JSON number literal: optional minus, an integer part with no leading zero,
then optional fraction and exponent; returns the literal and the remainder. -/
def parseJNumber (cs : List Char) : Option (List Char × List Char) :=
  let signAndRest :=
    match cs with
    | '-' :: r => ((['-'] : List Char), r)
    | _ => (([] : List Char), cs)
  match signAndRest.2 with
  | [] => none
  | c :: rest =>
    if c == '0' then
      match parseJFrac rest with
      | none => none
      | some (frac, rest2) =>
        match parseJExp rest2 with
        | none => none
        | some (ex, rest3) => some (signAndRest.1 ++ '0' :: (frac ++ ex), rest3)
    else if c.isDigit then
      let ds := digitSpan (c :: rest)
      match parseJFrac ds.2 with
      | none => none
      | some (frac, rest2) =>
        match parseJExp rest2 with
        | none => none
        | some (ex, rest3) => some (signAndRest.1 ++ ds.1 ++ frac ++ ex, rest3)
    else none

mutual

/-- Recursive-descent value parser of `JSON.parse` (fuel-bounded; `jsonParse` supplies
fuel exceeding any possible nesting depth, so running out of fuel only ever rejects). -/
def parseJValue : Nat → List Char → Option (Json × List Char)
  | 0, _ => none
  | _ + 1, [] => none
  | fuel + 1, c :: rest =>
    if c == '{' then
      match skipJWs rest with
      | '}' :: r2 => some (Json.obj [], r2)
      | r1 =>
        match parseJMembers fuel r1 with
        | some (ms, r2) => some (Json.obj ms, r2)
        | none => none
    else if c == '[' then
      match skipJWs rest with
      | ']' :: r2 => some (Json.arr [], r2)
      | r1 =>
        match parseJElems fuel r1 with
        | some (vs, r2) => some (Json.arr vs, r2)
        | none => none
    else if c == '"' then
      match parseJStringRest rest with
      | some (content, r2) => some (Json.str (String.mk content), r2)
      | none => none
    else if c == 't' then
      match rest with
      | 'r' :: 'u' :: 'e' :: r2 => some (Json.bool true, r2)
      | _ => none
    else if c == 'f' then
      match rest with
      | 'a' :: 'l' :: 's' :: 'e' :: r2 => some (Json.bool false, r2)
      | _ => none
    else if c == 'n' then
      match rest with
      | 'u' :: 'l' :: 'l' :: r2 => some (Json.null, r2)
      | _ => none
    else
      match parseJNumber (c :: rest) with
      | some (lit, r2) => some (Json.num (String.mk lit), r2)
      | none => none

/-- Array elements: `element (',' element)*` up to and including the closing bracket. -/
def parseJElems : Nat → List Char → Option (List Json × List Char)
  | 0, _ => none
  | fuel + 1, cs =>
    match parseJValue fuel (skipJWs cs) with
    | none => none
    | some (v, rest) =>
      match skipJWs rest with
      | ',' :: r2 =>
        match parseJElems fuel r2 with
        | some (vs, r3) => some (v :: vs, r3)
        | none => none
      | ']' :: r2 => some ([v], r2)
      | _ => none

/-- Object members up to and including the closing brace. -/
def parseJMembers : Nat → List Char → Option (List (String × Json) × List Char)
  | 0, _ => none
  | fuel + 1, cs =>
    match skipJWs cs with
    | '"' :: r1 =>
      match parseJStringRest r1 with
      | none => none
      | some (key, r2) =>
        match skipJWs r2 with
        | ':' :: r3 =>
          match parseJValue fuel (skipJWs r3) with
          | none => none
          | some (v, r4) =>
            match skipJWs r4 with
            | ',' :: r5 =>
              match parseJMembers fuel r5 with
              | some (ms, r6) => some ((String.mk key, v) :: ms, r6)
              | none => none
            | '}' :: r5 => some ([(String.mk key, v)], r5)
            | _ => none
        | _ => none
    | _ => none

end

/-- `JSON.parse`: one value surrounded by optional whitespace, trailing garbage
rejected. -/
def jsonParse (cs : List Char) : Option Json :=
  match parseJValue (cs.length + 1) (skipJWs cs) with
  | some (v, rest) => if skipJWs rest = [] then some v else none
  | none => none

/-- The scanning loop of `extractJsonBlock` (json-parser.ts lines 55-86): walk the
text keeping a nesting depth and a string/escape state, and return the consumed
slice once the depth returns to zero. The depth is an Int because the JavaScript
counter may in general go negative. -/
def scanBlock (openCh closeCh : Char) : List Char → Int → Bool → Bool → Option (List Char)
  | [], _, _, _ => none
  | c :: rest, depth, inString, escape =>
    if escape then (scanBlock openCh closeCh rest depth inString false).map (c :: ·)
    else if c == '\\' && inString then
      (scanBlock openCh closeCh rest depth inString true).map (c :: ·)
    else if c == '"' then (scanBlock openCh closeCh rest depth (!inString) false).map (c :: ·)
    else if inString then (scanBlock openCh closeCh rest depth inString false).map (c :: ·)
    else if c == openCh then (scanBlock openCh closeCh rest (depth + 1) false false).map (c :: ·)
    else if c == closeCh then
      if depth - 1 == 0 then some [c]
      else (scanBlock openCh closeCh rest (depth - 1) false false).map (c :: ·)
    else (scanBlock openCh closeCh rest depth false false).map (c :: ·)

/-- Drop everything before the first occurrence of `a`, keeping `a` itself
(JavaScript `indexOf` plus slicing); none when `a` is absent. -/
def splitAtChar (a : Char) : List Char → Option (List Char)
  | [] => none
  | c :: rest => if c == a then some (c :: rest) else splitAtChar a rest

/-- One pass of `extractJsonBlock` for a given bracket pair: locate the first opening
character, then scan for the balanced closing one. -/
def extractFrom (openCh closeCh : Char) (text : List Char) : Option (List Char) :=
  match splitAtChar openCh text with
  | none => none
  | some rest => scanBlock openCh closeCh rest 0 false false

/-- `extractJsonBlock` (json-parser.ts lines 46-90): try the brace pair first, then
the bracket pair. -/
def extractJsonBlock (text : List Char) : Option (List Char) :=
  match extractFrom '{' '}' text with
  | some b => some b
  | none => extractFrom '[' ']' text

/-- The backtick character, written by code point. -/
def backtickChar : Char := Char.ofNat 96

/-- Does the text begin with three backticks? -/
def startsWithTicks (cs : List Char) : Bool :=
  match cs with
  | a :: b :: c :: _ => a == backtickChar && b == backtickChar && c == backtickChar
  | _ => false

/-- Text after the first triple-backtick occurrence, if any. -/
def splitAfterTicks : List Char → Option (List Char)
  | [] => none
  | c :: rest =>
    if startsWithTicks (c :: rest) then some (rest.drop 2)
    else splitAfterTicks rest

/-- The closing pattern `\n?\s*` plus a triple backtick; `\n` lies inside `\s`, so
this is: skip whitespace, then require three backticks. -/
def fenceCloseHere (cs : List Char) : Bool :=
  startsWithTicks (cs.dropWhile jsWsChar)

/-- The lazy capture group of the fence regex: the shortest prefix whose remainder
matches the closing pattern; none when no closing fence follows. -/
def fenceCapture : List Char → Option (List Char)
  | [] => none
  | c :: rest =>
    if fenceCloseHere (c :: rest) then some []
    else (fenceCapture rest).map (c :: ·)

/-- The fence regex of parseJSON strategy 2 (json-parser.ts line 14): an opening
triple backtick, an optional literal `json` tag, greedy whitespace, then the lazily
captured body up to a closing-fence pattern; the capture group is returned. -/
def jsFenceMatch (text : List Char) : Option (List Char) :=
  match splitAfterTicks text with
  | none => none
  | some after =>
    let after1 :=
      match after with
      | 'j' :: 's' :: 'o' :: 'n' :: r => r
      | _ => after
    fenceCapture (after1.dropWhile jsWsChar)

/-- Scanner for the global regex replace that drops a trailing comma before a closing
brace or bracket (`fixCommonJsonIssues`, json-parser.ts line 95). `pending` holds, in
reverse, a comma plus the whitespace scanned after it while the match is still open. -/
def dropCommasGo : List Char → List Char → List Char
  | pending, [] => pending.reverse
  | pending, c :: rest =>
    match pending with
    | [] =>
      if c == ',' then dropCommasGo [c] rest
      else c :: dropCommasGo [] rest
    | _ =>
      if c == '}' || c == ']' then c :: dropCommasGo [] rest
      else if jsWsChar c then dropCommasGo (c :: pending) rest
      else if c == ',' then pending.reverse ++ dropCommasGo [c] rest
      else pending.reverse ++ (c :: dropCommasGo [] rest)

/-- Remove trailing commas before closing brackets, as the first regex replacement of
`fixCommonJsonIssues`. -/
def dropTrailingCommas (text : List Char) : List Char := dropCommasGo [] text

/-- `fixCommonJsonIssues` (json-parser.ts lines 92-102): drop trailing commas; then,
only when the text has no double quote but does have single quotes, replace every
single quote by a double quote. -/
def fixCommonJsonIssues (text : List Char) : List Char :=
  let fixed := dropTrailingCommas text
  if !fixed.contains '"' && fixed.contains '\'' then
    fixed.map fun c => if c == '\'' then '"' else c
  else fixed

/-- `parseJSON` (json-parser.ts lines 6-36): reject empty or whitespace-only input,
then try the four salvage strategies in order — direct parse of the trimmed text,
fenced block, first balanced brace/bracket block, and the same extraction after
`fixCommonJsonIssues`. -/
def parseJSON (text : List Char) : Option Json :=
  if trimChars text = [] then none
  else
    match jsonParse (trimChars text) with
    | some v => some v
    | none =>
      match
        (match jsFenceMatch text with
         | some captured => jsonParse (trimChars captured)
         | none => none) with
      | some v => some v
      | none =>
        match
          (match extractJsonBlock text with
           | some block => jsonParse block
           | none => none) with
        | some v => some v
        | none =>
          match extractJsonBlock (fixCommonJsonIssues text) with
          | some fixedBlock => jsonParse fixedBlock
          | none => none

/-- One tool call from the LLM, with its name and raw JSON argument string
(`toolCall.function.name` / `toolCall.function.arguments`). -/
structure ToolCall where
  id : String
  name : String
  arguments : String
  deriving DecidableEq, Repr

/-- The names of the twelve worker tools catalogued in `WORKER_TOOLS`
(src/tools/index.ts lines 14-192). -/
def workerToolNames : List String :=
  ["read_file", "write_file", "list_directory", "execute_command", "search_files",
   "patch_file", "web_search", "web_reader", "glob_files", "init_database",
   "execute_sql", "list_tables"]

/-- The individual tool implementations live outside the dispatcher (read-file.ts,
write-file.ts, execute-sql.ts, ...); the dispatcher hands them the project root, the
parsed arguments and, for the two writing tools, the shared artifacts array and the
worker index. They are opaque parameters of the embedding. -/
structure ToolImpls where
  read_file : String → Json → String
  write_file : String → Json → List String → Option Nat → String × List String
  list_directory : String → Json → String
  execute_command : String → Json → String
  search_files : String → Json → String
  patch_file : String → Json → List String → Option Nat → String × List String
  web_search : Json → String
  web_reader : Json → String
  glob_files : String → Json → String
  init_database : String → Json → String
  execute_sql : String → Json → String
  list_tables : String → Json → String

/-- `executeTool` (src/tools/index.ts lines 194-235): parse the JSON argument string,
returning an error string on failure, then dispatch on the tool name; an unknown name
yields an error string. The returned pair is the result string together with the
artifacts array, which only `write_file` and `patch_file` may extend. -/
def executeTool (impls : ToolImpls) (toolCall : ToolCall) (projectRoot : String)
    (artifacts : List String) (workerIndex : Option Nat) : String × List String :=
  match jsonParse toolCall.arguments.toList with
  | none => ("Error: Failed to parse tool arguments: " ++ toolCall.arguments, artifacts)
  | some args =>
    if toolCall.name = "read_file" then (impls.read_file projectRoot args, artifacts)
    else if toolCall.name = "write_file" then
      impls.write_file projectRoot args artifacts workerIndex
    else if toolCall.name = "list_directory" then
      (impls.list_directory projectRoot args, artifacts)
    else if toolCall.name = "execute_command" then
      (impls.execute_command projectRoot args, artifacts)
    else if toolCall.name = "search_files" then (impls.search_files projectRoot args, artifacts)
    else if toolCall.name = "patch_file" then
      impls.patch_file projectRoot args artifacts workerIndex
    else if toolCall.name = "web_search" then (impls.web_search args, artifacts)
    else if toolCall.name = "web_reader" then (impls.web_reader args, artifacts)
    else if toolCall.name = "glob_files" then (impls.glob_files projectRoot args, artifacts)
    else if toolCall.name = "init_database" then (impls.init_database projectRoot args, artifacts)
    else if toolCall.name = "execute_sql" then (impls.execute_sql projectRoot args, artifacts)
    else if toolCall.name = "list_tables" then (impls.list_tables projectRoot args, artifacts)
    else ("Error: Unknown tool \"" ++ toolCall.name ++ "\"", artifacts)

/-- Tool implementations that do nothing, for witnesses. -/
def trivialToolImpls : ToolImpls :=
  { read_file := fun _ _ => "", write_file := fun _ _ a _ => ("", a)
    list_directory := fun _ _ => "", execute_command := fun _ _ => ""
    search_files := fun _ _ => "", patch_file := fun _ _ a _ => ("", a)
    web_search := fun _ => "", web_reader := fun _ => ""
    glob_files := fun _ _ => "", init_database := fun _ _ => ""
    execute_sql := fun _ _ => "", list_tables := fun _ _ => "" }

/-- A tool call whose argument string is not JSON. -/
def cexBadArgsCall : ToolCall := { id := "1", name := "read_file", arguments := "not json" }

/-- A tool call with an uncatalogued name. -/
def cexUnknownCall : ToolCall := { id := "2", name := "no_such_tool", arguments := "\x7b\x7d" }

/-- A JavaScript throwable as inspected by `isRetryable` (llm client lines 32-38):
either a falsy value (the `!err` guard) or an error object with optional `status`,
`statusCode` and `code` fields plus a message. -/
inductive LlmErr
  | nullish
  | err (status statusCode : Option Int) (code : Option String) (message : String)
  deriving DecidableEq, Repr

/-- `isRetryable` (llm client lines 32-38): true for HTTP 429 or any 5xx on
`err.status ?? err.statusCode`, or for the connection-family codes ECONNRESET,
ETIMEDOUT, ENOTFOUND; false otherwise, in particular for falsy throwables. -/
def isRetryable : LlmErr → Bool
  | LlmErr.nullish => false
  | LlmErr.err status statusCode code _ =>
    (match status <|> statusCode with
     | some s => s == 429 || (decide ((500 : Int) ≤ s) && decide (s < 600))
     | none => false) ||
    code == some "ECONNRESET" || code == some "ETIMEDOUT" || code == some "ENOTFOUND"

/-- Events observable from one transport call: limiter acquire/release, the
`llm:retry` emission (with its payload attempt, maxRetries and delayMs), and the
backoff sleep. -/
inductive LlmEvent
  | acquire
  | release
  | retryEmit (attempt maxRetries delayMs : Nat)
  | sleep (ms : Nat)
  deriving DecidableEq, Repr

/-- `MAX_RETRIES` (llm client line 23). -/
def MAX_RETRIES : Nat := 3

/-- `getRetryDelay` (llm client lines 26-30): `1000 * 2^attempt` milliseconds plus
the jitter drawn for this attempt; `jitter` models `Math.random() * 500`, so the
theorems hypothesize `jitter n < 500`. -/
def getRetryDelay (jitter : Nat → Nat) (attempt : Nat) : Nat :=
  1000 * 2 ^ attempt + jitter attempt

/-- The retry loop shared verbatim by `chatCompletion` (llm client lines 48-86) and
`chatCompletionStream` (lines 97-193): each attempt acquires the limiter, runs the
request (`outcomes attempt` supplies the environment's response or thrown error), and
leaves through the `finally` that releases the limiter. A retryable error below the
retry budget emits `llm:retry`, sleeps the backoff delay, releases (the `finally`
runs on `continue`), and moves to the next attempt; any other error is rethrown after
the release. The fuel is `MAX_RETRIES + 1 - attempt`; the fuel-0 case is the dead
`throw lastError` after the loop (throwing undefined when no attempt ran). -/
def chatAttempts (outcomes : Nat → Except LlmErr α) (jitter : Nat → Nat) :
    Nat → Nat → Option LlmErr → List LlmEvent × Except LlmErr α
  | _, 0, lastError => ([], Except.error (lastError.getD LlmErr.nullish))
  | attempt, fuel + 1, _ =>
    match outcomes attempt with
    | Except.ok r => ([LlmEvent.acquire, LlmEvent.release], Except.ok r)
    | Except.error e =>
      if decide (attempt < MAX_RETRIES) && isRetryable e then
        let d := getRetryDelay jitter attempt
        let next := chatAttempts outcomes jitter (attempt + 1) fuel (some e)
        (LlmEvent.acquire :: LlmEvent.retryEmit (attempt + 1) MAX_RETRIES d ::
          LlmEvent.sleep d :: LlmEvent.release :: next.1, next.2)
      else ([LlmEvent.acquire, LlmEvent.release], Except.error e)

/-- `chatCompletion` (llm client lines 40-86), abstracted over per-attempt outcomes:
returns the event trace and the returned or thrown result. -/
def chatCompletion (outcomes : Nat → Except LlmErr α) (jitter : Nat → Nat) :
    List LlmEvent × Except LlmErr α :=
  chatAttempts outcomes jitter 0 (MAX_RETRIES + 1) none

/-- `chatCompletionStream` (llm client lines 88-193): its retry skeleton is the one
of `chatCompletion` verbatim; the streamed-response assembly happens inside a
successful outcome and does not touch the retry logic. -/
def chatCompletionStream (outcomes : Nat → Except LlmErr α) (jitter : Nat → Nat) :
    List LlmEvent × Except LlmErr α :=
  chatAttempts outcomes jitter 0 (MAX_RETRIES + 1) none

/-- Occurrence count of an event in a trace. -/
def countEv (ev : LlmEvent) (evs : List LlmEvent) : Nat :=
  (evs.filter fun e => decide (e = ev)).length

/-- A connection-reset transport error (retryable). -/
def cexConnReset : LlmErr := LlmErr.err none none (some "ECONNRESET") "socket hang up"

/-- An environment in which every attempt throws a connection reset. -/
def cexOutcomes : Nat → Except LlmErr Nat := fun _ => Except.error cexConnReset

/-- A fixed jitter draw. -/
def cexJitter : Nat → Nat := fun _ => 7

/-- Configuration of one rate limiter: `maxConcurrent` (C) and `maxPerHour` (H),
from the `RateLimiter` constructor (rate-limiter.ts lines 11-14). -/
structure RLConfig where
  maxConcurrent : Nat
  maxPerHour : Nat
  deriving DecidableEq, Repr

/-- Where one `acquire()` caller stands between its await points: not yet called,
parked in the wait queue, woken from the queue (promise resolved, continuation not
yet run), sleeping until an hourly wake time, or admitted. -/
inductive RLPhase
  | idle
  | waitingConc
  | wokenConc
  | sleepingHourly (wakeAt : Nat)
  | admitted
  deriving DecidableEq, Repr

/-- The limiter state plus the cooperative callers: `clock` is `Date.now()` in
milliseconds, `activeCount` is an Int since unmatched releases drive the JavaScript
counter negative, `phases` is indexed by caller id. -/
structure RLState where
  clock : Nat
  activeCount : Int
  callTimestamps : List Nat
  waitQueue : List Nat
  phases : List RLPhase
  deriving DecidableEq, Repr

/-- `pruneOldTimestamps` (rate-limiter.ts lines 57-62): shift entries older than one
hour off the front of the list. On Nat, `clock - 3600000` truncates at zero, which
agrees with the JavaScript comparison against a negative bound because timestamps are
never negative. -/
def pruneOld (clock : Nat) (ts : List Nat) : List Nat :=
  ts.dropWhile fun t => decide (t < clock - 3600000)

/-- The hourly-limit section of `acquire` (rate-limiter.ts lines 24-37), one while
iteration per resumption: prune, then either sleep until the oldest timestamp leaves
the window plus the 100 ms buffer (after a prune the computed wait is provably
positive, except in the degenerate `maxPerHour = 0` empty-list case, where the source
spins forever and the model re-sleeps immediately), or admit the caller: increment
the active count and push the current time. -/
def hourlySegment (cfg : RLConfig) (st : RLState) (pid : Nat) : RLState :=
  let ts := pruneOld st.clock st.callTimestamps
  if cfg.maxPerHour ≤ ts.length then
    match ts with
    | oldest :: _ =>
      { st with callTimestamps := ts
                phases := st.phases.set pid (RLPhase.sleepingHourly (oldest + 3600000 + 100)) }
    | [] =>
      { st with callTimestamps := ts
                phases := st.phases.set pid (RLPhase.sleepingHourly st.clock) }
  else
    { st with callTimestamps := ts ++ [st.clock]
              activeCount := st.activeCount + 1
              phases := st.phases.set pid RLPhase.admitted }

/-- The concurrency while-loop head of `acquire` (rate-limiter.ts lines 17-22): park
in the FIFO wait queue while the active count is at the limit, else fall through to
the hourly section within the same synchronous segment. -/
def concSegment (cfg : RLConfig) (st : RLState) (pid : Nat) : RLState :=
  if (cfg.maxConcurrent : Int) ≤ st.activeCount then
    { st with waitQueue := st.waitQueue ++ [pid]
              phases := st.phases.set pid RLPhase.waitingConc }
  else hourlySegment cfg st pid

/-- `release` (rate-limiter.ts lines 40-45): decrement the active count and resolve
the first queued waiter's promise; that waiter re-enters the concurrency check when
next scheduled. -/
def releaseOp (st : RLState) : RLState :=
  let st1 := { st with activeCount := st.activeCount - 1 }
  match st1.waitQueue with
  | [] => st1
  | next :: rest =>
    { st1 with waitQueue := rest, phases := st1.phases.set next RLPhase.wokenConc }

/-- One scheduler step of the cooperative interleaving: let time pass, start an
`acquire()`, resume a waiter woken from the queue, fire an hourly sleeper's timer
(once its wake time has arrived), or run a `release()`. Steps whose precondition
fails are no-ops. -/
inductive RLStep
  | tick (ms : Nat)
  | start (pid : Nat)
  | resume (pid : Nat)
  | wake (pid : Nat)
  | release
  deriving DecidableEq, Repr

/-- Step semantics of the limiter machine. -/
def rlStep (cfg : RLConfig) (st : RLState) : RLStep → RLState
  | RLStep.tick ms => { st with clock := st.clock + ms }
  | RLStep.start pid =>
    if st.phases.getD pid RLPhase.idle = RLPhase.idle then concSegment cfg st pid else st
  | RLStep.resume pid =>
    if st.phases.getD pid RLPhase.idle = RLPhase.wokenConc then concSegment cfg st pid else st
  | RLStep.wake pid =>
    match st.phases.getD pid RLPhase.idle with
    | RLPhase.sleepingHourly w => if w ≤ st.clock then hourlySegment cfg st pid else st
    | _ => st
  | RLStep.release => releaseOp st

/-- The initial state with `n` potential callers. -/
def rlInit (n : Nat) : RLState :=
  { clock := 0, activeCount := 0, callTimestamps := [], waitQueue := []
    phases := List.replicate n RLPhase.idle }

/-- Run a schedule from the initial state. -/
def rlRun (cfg : RLConfig) (n : Nat) (steps : List RLStep) : RLState :=
  steps.foldl (rlStep cfg) (rlInit n)

/-- The schedule exhibiting the concurrency overshoot: with C = 1 and H = 2, two
quick acquire/release pairs fill the hourly window; callers 2 and 3 then both pass
the concurrency check and park on the hourly sleep; when both wake after the window
empties, each re-checks only the hourly bound and both are admitted. -/
def cexRLSchedule : List RLStep :=
  [RLStep.start 0, RLStep.release, RLStep.start 1, RLStep.release,
   RLStep.start 2, RLStep.start 3, RLStep.tick 3600200, RLStep.wake 2, RLStep.wake 3]

/-- A one-caller state whose caller was just woken from the wait queue while the
limiter is still saturated. -/
def cexWokenState : RLState :=
  { clock := 0, activeCount := 1, callTimestamps := [], waitQueue := []
    phases := [RLPhase.wokenConc] }

/-- An assistant reply message: optional text content plus tool calls. The source's
`tool_calls` may be absent; the empty list models both absent and empty, which the
worker loop treats identically. -/
structure AssistantMsg where
  content : Option String
  tool_calls : List ToolCall
  deriving DecidableEq, Repr

/-- One entry of the worker's conversation. -/
inductive WMsg
  | system (content : String)
  | user (content : String)
  | assistant (msg : AssistantMsg)
  | tool (tool_call_id : String) (content : String)
  deriving DecidableEq, Repr

/-- Outcome of one `chatCompletionStream` call inside the worker loop: the call threw
(with a message), returned no choice, or returned an assistant message. -/
inductive WLlm
  | failure (message : String)
  | noChoice
  | reply (msg : AssistantMsg)
  deriving DecidableEq, Repr

/-- The per-tool-call body of the worker loop (worker module lines 161-185): execute
the tool; on an exception retry once; on a second exception use the error text
prefixed with "Tool execution failed after retry: " as the result; then append the
tool-role message and move on. `toolExec k artifacts` is the environment's outcome of
the k-th `executeTool` invocation — the result string and updated artifacts, or a
thrown error's message; `k` counts invocations, so a retry consumes the next
outcome. -/
def processToolCalls (toolExec : Nat → List String → Except String (String × List String)) :
    List ToolCall → Nat → List String → List WMsg → Nat × List String × List WMsg
  | [], k, artifacts, msgs => (k, artifacts, msgs)
  | tc :: rest, k, artifacts, msgs =>
    match toolExec k artifacts with
    | Except.ok ra =>
      processToolCalls toolExec rest (k + 1) ra.2 (msgs ++ [WMsg.tool tc.id ra.1])
    | Except.error _ =>
      match toolExec (k + 1) artifacts with
      | Except.ok ra =>
        processToolCalls toolExec rest (k + 2) ra.2 (msgs ++ [WMsg.tool tc.id ra.1])
      | Except.error retryErr =>
        processToolCalls toolExec rest (k + 2) artifacts
          (msgs ++ [WMsg.tool tc.id ("Tool execution failed after retry: " ++ retryErr)])

/-- The worker iteration loop (worker module lines 115-186), fueled by the remaining
loop budget: call the streaming LLM, return a failed result on a thrown call or an
empty choice, finish completed on a reply without tool calls, otherwise append the
assistant message, process every tool call, and continue. Prompt construction is
elided: `msgs` starts from the built system and user prompts. -/
def runWorkerGo (llm : Nat → WLlm)
    (toolExec : Nat → List String → Except String (String × List String))
    (subtaskId : String) (maxLoops : Nat) :
    Nat → Nat → Nat → List String → List WMsg → WorkerResult × List WMsg
  | 0, _, _, artifacts, msgs =>
    ({ subtaskId := subtaskId, status := WorkerStatus.failed
       summary := "Exceeded maximum tool call iterations (" ++ toString maxLoops ++ ")"
       artifacts := artifacts, error := some "max_iterations" }, msgs)
  | remaining + 1, step, k, artifacts, msgs =>
    match llm step with
    | WLlm.failure m =>
      ({ subtaskId := subtaskId, status := WorkerStatus.failed
         summary := "LLM call failed: " ++ m, artifacts := artifacts, error := some m }, msgs)
    | WLlm.noChoice =>
      ({ subtaskId := subtaskId, status := WorkerStatus.failed
         summary := "No response from LLM", artifacts := artifacts
         error := some "empty_response" }, msgs)
    | WLlm.reply am =>
      let msgs1 := msgs ++ [WMsg.assistant am]
      if am.tool_calls = [] then
        ({ subtaskId := subtaskId, status := WorkerStatus.completed
           summary := am.content.getD "(no summary provided)", artifacts := artifacts
           error := none }, msgs1)
      else
        let processed := processToolCalls toolExec am.tool_calls k artifacts msgs1
        runWorkerGo llm toolExec subtaskId maxLoops remaining (step + 1) processed.1
          processed.2.1 processed.2.2

/-- `runWorker` (worker module lines 94-195) over the environment: loop budget
`maxLoops = MAX_WORKER_TOOL_LOOPS`, starting at step 0 with no artifacts. -/
def runWorker (llm : Nat → WLlm)
    (toolExec : Nat → List String → Except String (String × List String))
    (subtaskId : String) (maxLoops : Nat) (initMsgs : List WMsg) :
    WorkerResult × List WMsg :=
  runWorkerGo llm toolExec subtaskId maxLoops maxLoops 0 0 [] initMsgs

/-- A tool-execution environment whose first two invocations throw. -/
def cexToolExec : Nat → List String → Except String (String × List String) :=
  fun k a => if k < 2 then Except.error "EBUSY" else Except.ok ("ok", a)

/-- A concrete tool call for the worker-retry witness. -/
def cexC4Call : ToolCall := { id := "c1", name := "read_file", arguments := "\x7b\x7d" }

/-- One orchestrator conversation entry. -/
inductive OMsg
  | system (content : String)
  | user (content : String)
  | assistant (content : String)
  deriving DecidableEq, Repr

/-- Zero test for a JSON number literal: true exactly when every mantissa digit
(before any exponent marker) is '0'. -/
def jsonNumIsZero (lit : String) : Bool :=
  (lit.toList.takeWhile fun c => !(c == 'e' || c == 'E')).all fun c => !c.isDigit || c == '0'

/-- JavaScript truthiness of a parsed JSON value: null, false, zero and the empty
string are falsy. -/
def jsTruthy : Json → Bool
  | Json.null => false
  | Json.bool b => b
  | Json.num lit => !jsonNumIsZero lit
  | Json.str s => !decide (s = "")
  | Json.arr _ => true
  | Json.obj _ => true

/-- The `!parseJSON(content)` test in `askOrchestrator` (orchestrator.ts line 426):
true when parsing fails or when the parsed value is JavaScript-falsy. -/
def parseResultFalsy (content : String) : Bool :=
  match parseJSON content.toList with
  | none => true
  | some v => !jsTruthy v

/-- The reminder user message appended by `askOrchestrator` on a non-JSON reply
(orchestrator.ts line 430). -/
def jsonReminder : String :=
  "Your response was not valid JSON. Please respond with ONLY valid JSON, no other text."

/-- The reminder wording quoted by the specification. -/
def claimedReminder : String :=
  "Your response was not valid JSON. Respond with ONLY valid JSON."

/-- The retry loop of `askOrchestrator` (orchestrator.ts lines 413-438), fueled by
`maxJsonRetries + 1 - attempt`: `llm attempt` supplies the reply content
(`choices[0]?.message?.content ?? ''`). An empty (trimmed) reply with retries left is
retried silently; a reply failing `parseJSON` (or parsing to a falsy value) with
retries left is appended together with the reminder user message and retried;
otherwise the reply is appended and returned. The fuel-0 case is the dead
`return ''` after the loop. Context-window management (`manageContext`) is modeled as
the identity. -/
def askOrchestratorGo (llm : Nat → String) (maxJsonRetries : Nat) :
    Nat → Nat → List OMsg → List OMsg × String
  | _, 0, msgs => (msgs, "")
  | attempt, fuel + 1, msgs =>
    let content := llm attempt
    if attempt < maxJsonRetries ∧ trimChars content.toList = [] then
      askOrchestratorGo llm maxJsonRetries (attempt + 1) fuel msgs
    else if attempt < maxJsonRetries ∧ parseResultFalsy content = true then
      askOrchestratorGo llm maxJsonRetries (attempt + 1) fuel
        (msgs ++ [OMsg.assistant content, OMsg.user jsonReminder])
    else (msgs ++ [OMsg.assistant content], content)

/-- `askOrchestrator` (orchestrator.ts lines 403-440): push the user message, then
run the retry loop from attempt 0 with `maxJsonRetries + 1` total attempts. -/
def askOrchestrator (llm : Nat → String) (maxJsonRetries : Nat) (msgs : List OMsg)
    (userMessage : String) : List OMsg × String :=
  askOrchestratorGo llm maxJsonRetries 0 (maxJsonRetries + 1) (msgs ++ [OMsg.user userMessage])

/-- A reply sequence whose first reply is not JSON. -/
def cexLlmBadJson : Nat → String := fun n => if n = 0 then "not json" else "\x7b\"ok\":true\x7d"

/-- A reply sequence whose first reply is empty. -/
def cexLlmEmpty : Nat → String := fun n => if n = 0 then "" else "\x7b\"ok\":true\x7d"

end Swarm

namespace Swarm

theorem find_dep_completed_iff (subtasks : List Subtask) (depId : String) :
    ((match subtasks.find? (fun t => decide (t.id = depId)) with
      | some dep => decide (dep.status = SubtaskStatus.completed)
      | none => false) = true) ↔
      ∃ dep, subtasks.find? (fun t => decide (t.id = depId)) = some dep ∧
        dep.status = SubtaskStatus.completed := by
  cases h : subtasks.find? fun t => decide (t.id = depId) with
  | none => simp [h]
  | some dep => simp [h]

/-- C1: a subtask is in `getReadySubtasks()` exactly when it is in the context with
status pending and every one of its dependency ids resolves (by first-match lookup)
to a subtask of the context whose status is completed; a dependency id matching no
subtask resolves to nothing, so such a subtask is never ready. -/
theorem C1_getReadySubtasks_mem_iff (subtasks : List Subtask) (s : Subtask) :
    s ∈ getReadySubtasks subtasks ↔
      s ∈ subtasks ∧ s.status = SubtaskStatus.pending ∧
        ∀ depId ∈ s.dependencies,
          ∃ dep, subtasks.find? (fun t => decide (t.id = depId)) = some dep ∧
            dep.status = SubtaskStatus.completed := by
  unfold getReadySubtasks
  rw [List.mem_filter]
  simp only [Bool.and_eq_true, decide_eq_true_eq, List.all_eq_true]
  constructor
  · rintro ⟨hmem, hpend, hdeps⟩
    exact ⟨hmem, hpend, fun depId hd => (find_dep_completed_iff subtasks depId).mp (hdeps depId hd)⟩
  · rintro ⟨hmem, hpend, hdeps⟩
    exact ⟨hmem, hpend, fun depId hd => (find_dep_completed_iff subtasks depId).mpr (hdeps depId hd)⟩

theorem mem_updateFirst {p : Subtask → Bool} {f : Subtask → Subtask} :
    ∀ {l : List Subtask} {y : Subtask}, y ∈ updateFirst p f l →
      y ∈ l ∨ ∃ x, l.find? p = some x ∧ p x = true ∧ y = f x := by
  intro l
  induction l with
  | nil => intro y hy; simp [updateFirst] at hy
  | cons a l ih =>
    intro y hy
    by_cases hpa : p a
    · rw [updateFirst, if_pos hpa] at hy
      rcases List.mem_cons.mp hy with h | h
      · exact Or.inr ⟨a, List.find?_cons_of_pos _ hpa, hpa, h⟩
      · exact Or.inl (List.mem_cons_of_mem _ h)
    · rw [updateFirst, if_neg hpa] at hy
      rcases List.mem_cons.mp hy with h | h
      · exact Or.inl (h ▸ List.mem_cons_self a l)
      · rcases ih h with h' | ⟨x, hfind, hpx, hyx⟩
        · exact Or.inl (List.mem_cons_of_mem _ h')
        · refine Or.inr ⟨x, ?_, hpx, hyx⟩
          rw [List.find?_cons_of_neg _ (by simpa using hpa)]
          exact hfind

theorem mem_addSubtasksGo {idMap : Nat → String} {planItems : List PlanItem} :
    ∀ (l : List (Nat × PlanItem)) (ctx : List Subtask) (y : Subtask),
      y ∈ addSubtasksGo idMap planItems ctx l →
      y ∈ ctx ∨ (y.attempts = 0 ∧ y.status = SubtaskStatus.pending) := by
  intro l
  induction l with
  | nil => intro ctx y hy; exact Or.inl hy
  | cons hd tl ih =>
    intro ctx y hy
    obtain ⟨i, item⟩ := hd
    rw [addSubtasksGo] at hy
    rcases ih _ y hy with h | h
    · rcases List.mem_append.mp h with h | h
      · exact Or.inl h
      · have : y = mkPlannedSubtask idMap planItems ctx i item := by simpa using h
        subst this
        exact Or.inr ⟨rfl, rfl⟩
    · exact Or.inr h

theorem applyWorkerResultSubtask_capped (maxAttempts : Nat) (r : WorkerResult) (x : Subtask)
    (hxa : x.attempts ≤ maxAttempts) :
    maxAttempts < (applyWorkerResultSubtask maxAttempts r x).attempts →
      (applyWorkerResultSubtask maxAttempts r x).status = SubtaskStatus.failed := by
  unfold applyWorkerResultSubtask
  dsimp only
  split
  · intro hlt
    dsimp only at hlt
    exact (by omega : False).elim
  · split
    · intro _
      rfl
    · intro hlt
      rename_i hcap
      dsimp only at hlt hcap
      exact (by omega : False).elim

theorem applyDecisionSubtask_capped (maxAttempts : Nat) (d : ReviewDecision) (x : Subtask)
    (hxa : x.attempts ≤ maxAttempts) :
    maxAttempts < (applyDecisionSubtask maxAttempts d x).attempts →
      (applyDecisionSubtask maxAttempts d x).status = SubtaskStatus.failed := by
  unfold applyDecisionSubtask
  cases hd : d.verdict with
  | accept =>
    intro hlt
    dsimp only at hlt
    exact (by omega : False).elim
  | revise =>
    dsimp only
    split
    · intro _
      rfl
    · intro hlt
      rename_i hcap
      dsimp only at hlt hcap
      exact (by omega : False).elim
  | reassign =>
    intro hlt
    dsimp only at hlt
    exact (by omega : False).elim

theorem targetsLive_bound {maxAttempts : Nat} {st : List Subtask} {id : String} {x : Subtask}
    (hinv : AttemptsCapped maxAttempts st)
    (hok : targetsLive st id = true)
    (hfind : st.find? (fun t => decide (t.id = id)) = some x) :
    x.attempts ≤ maxAttempts := by
  have hxmem : x ∈ st := List.mem_of_find?_eq_some hfind
  have hlive : x.status ≠ SubtaskStatus.failed := by
    unfold targetsLive findSubtask at hok
    rw [hfind] at hok
    simpa using hok
  by_contra h
  exact hlive (hinv x hxmem (Nat.lt_of_not_le h))

theorem applyWorkerResult_capped {maxAttempts : Nat} {st : List Subtask} {r : WorkerResult}
    (hinv : AttemptsCapped maxAttempts st) (hok : targetsLive st r.subtaskId = true) :
    AttemptsCapped maxAttempts (applyWorkerResult maxAttempts st r) := by
  intro y hy hlt
  rcases mem_updateFirst hy with h | ⟨x, hfind, _, rfl⟩
  · exact hinv y h hlt
  · exact applyWorkerResultSubtask_capped maxAttempts r x (targetsLive_bound hinv hok hfind) hlt

theorem applyDecisionStep_capped {maxAttempts : Nat} {st : List Subtask} {d : ReviewDecision}
    (hinv : AttemptsCapped maxAttempts st) (hok : targetsLive st d.subtaskId = true) :
    AttemptsCapped maxAttempts
      (updateFirst (fun t => decide (t.id = d.subtaskId)) (applyDecisionSubtask maxAttempts d) st) := by
  intro y hy hlt
  rcases mem_updateFirst hy with h | ⟨x, hfind, _, rfl⟩
  · exact hinv y h hlt
  · exact applyDecisionSubtask_capped maxAttempts d x (targetsLive_bound hinv hok hfind) hlt

theorem applyReviewDecisions_capped {maxAttempts : Nat} :
    ∀ (ds : List ReviewDecision) (st : List Subtask),
      AttemptsCapped maxAttempts st → decisionsOk maxAttempts st ds = true →
      AttemptsCapped maxAttempts (applyReviewDecisions maxAttempts st ds) := by
  intro ds
  induction ds with
  | nil => intro st h _; simpa [applyReviewDecisions] using h
  | cons d ds ih =>
    intro st hinv hok
    rw [decisionsOk, Bool.and_eq_true] at hok
    have hstep := applyDecisionStep_capped hinv hok.1
    have hfold :
        applyReviewDecisions maxAttempts st (d :: ds) =
          applyReviewDecisions maxAttempts
            (updateFirst (fun t => decide (t.id = d.subtaskId))
              (applyDecisionSubtask maxAttempts d) st) ds := by
      simp [applyReviewDecisions]
    rw [hfold]
    exact ih _ hstep hok.2

theorem applyTaskOp_capped {maxAttempts : Nat} {st : List Subtask} {op : TaskOp}
    (hinv : AttemptsCapped maxAttempts st) (hok : opOk maxAttempts st op = true) :
    AttemptsCapped maxAttempts (applyTaskOp maxAttempts st op) := by
  cases op with
  | plan idMap items =>
    intro y hy hlt
    rcases mem_addSubtasksGo _ _ y hy with h | ⟨ha, _⟩
    · exact hinv y h hlt
    · omega
  | work r => exact applyWorkerResult_capped hinv (by simpa [opOk] using hok)
  | review ds => exact applyReviewDecisions_capped ds st hinv (by simpa [opOk] using hok)

theorem runTaskOps_capped_go {maxAttempts : Nat} :
    ∀ (ops : List TaskOp) (st : List Subtask),
      AttemptsCapped maxAttempts st → opsOk maxAttempts st ops = true →
      AttemptsCapped maxAttempts (ops.foldl (applyTaskOp maxAttempts) st) := by
  intro ops
  induction ops with
  | nil => intro st h _; simpa using h
  | cons op ops ih =>
    intro st hinv hok
    rw [opsOk, Bool.and_eq_true] at hok
    exact ih _ (applyTaskOp_capped hinv hok.1) hok.2

/-- C2 (amended): for any sequence of `addSubtasksFromPlan`, `applyWorkerResult` and
`applyReviewDecisions` calls starting from a fresh context, in which every worker result
and every review decision targets a subtask that is not already failed (or targets no
existing subtask), no subtask ever has attempts above `MAX_SUBTASK_ATTEMPTS` while its
status is not failed. The restriction to live targets is forced by the counterexample:
a reassign (or accept) decision aimed at an already-failed subtask revives it without
any cap check. -/
theorem C2_attempts_cap_invariant (maxAttempts : Nat) (ops : List TaskOp)
    (hops : opsOk maxAttempts [] ops = true) :
    ∀ s ∈ runTaskOps maxAttempts ops,
      maxAttempts < s.attempts → s.status = SubtaskStatus.failed :=
  runTaskOps_capped_go ops [] (by intro s hs; simp at hs) hops

/-- Witness: the invariant theorem applied to a concrete live-target call sequence. -/
theorem C2_attempts_cap_invariant_witness :
    opsOk 3 [] opsC2wit = true ∧
      ∀ s ∈ runTaskOps 3 opsC2wit, 3 < s.attempts → s.status = SubtaskStatus.failed :=
  ⟨by decide, C2_attempts_cap_invariant 3 opsC2wit (by decide)⟩

/-- Counterexample to C2 as stated: after the concrete sequence `opsC2cex`
(three worker failures, a reassign, a fourth failure, a second reassign)
the context holds a subtask with attempts 4 > 3 whose status is pending, not failed. -/
theorem C2_attempts_cap_counterexample :
    ∃ s ∈ runTaskOps 3 opsC2cex, 3 < s.attempts ∧ s.status ≠ SubtaskStatus.failed := by
  decide

end Swarm

namespace Swarm

theorem updateFirst_get? (p : Subtask → Bool) (f : Subtask → Subtask) :
    ∀ (l : List Subtask) (n : Nat) (x : Subtask), l.get? n = some x →
      (updateFirst p f l).get? n = some x ∨
        ((updateFirst p f l).get? n = some (f x) ∧ p x = true) := by
  intro l
  induction l with
  | nil => intro n x hx; simp at hx
  | cons a l ih =>
    intro n x hx
    by_cases hpa : p a
    · rw [updateFirst, if_pos hpa]
      cases n with
      | zero =>
        simp only [List.get?_cons_zero, Option.some.injEq] at hx
        subst hx
        exact Or.inr ⟨by simp, hpa⟩
      | succ n =>
        simp only [List.get?_cons_succ] at hx ⊢
        exact Or.inl hx
    · rw [updateFirst, if_neg hpa]
      cases n with
      | zero =>
        simp only [List.get?_cons_zero, Option.some.injEq] at hx
        subst hx
        exact Or.inl (by simp)
      | succ n =>
        simp only [List.get?_cons_succ] at hx ⊢
        exact ih n x hx

theorem applyWorkerResultSubtask_attempts_le (maxAttempts : Nat) (r : WorkerResult)
    (x : Subtask) : x.attempts ≤ (applyWorkerResultSubtask maxAttempts r x).attempts := by
  unfold applyWorkerResultSubtask
  dsimp only
  split
  · dsimp only; omega
  · split <;> (dsimp only; omega)

theorem applyDecisionSubtask_attempts_le (maxAttempts : Nat) (d : ReviewDecision)
    (x : Subtask) : x.attempts ≤ (applyDecisionSubtask maxAttempts d x).attempts := by
  unfold applyDecisionSubtask
  cases d.verdict with
  | accept => dsimp only; omega
  | revise =>
    dsimp only
    split <;> (dsimp only; omega)
  | reassign => dsimp only; omega

theorem attemptsMono_refl (l : List Subtask) : AttemptsMono l l :=
  fun _ x hx => ⟨x, hx, le_refl _⟩

theorem attemptsMono_trans {a b c : List Subtask} (h1 : AttemptsMono a b)
    (h2 : AttemptsMono b c) : AttemptsMono a c := by
  intro n x hx
  obtain ⟨y, hy, hxy⟩ := h1 n x hx
  obtain ⟨z, hz, hyz⟩ := h2 n y hy
  exact ⟨z, hz, le_trans hxy hyz⟩

theorem updateFirst_attemptsMono {p : Subtask → Bool} {f : Subtask → Subtask}
    (hf : ∀ x, x.attempts ≤ (f x).attempts) (l : List Subtask) :
    AttemptsMono l (updateFirst p f l) := by
  intro n x hx
  rcases updateFirst_get? p f l n x hx with h | ⟨h, _⟩
  · exact ⟨x, h, le_refl _⟩
  · exact ⟨f x, h, hf x⟩

theorem addSubtasksGo_append (idMap : Nat → String) (planItems : List PlanItem) :
    ∀ (l : List (Nat × PlanItem)) (ctx : List Subtask),
      ∃ tail, addSubtasksGo idMap planItems ctx l = ctx ++ tail := by
  intro l
  induction l with
  | nil => intro ctx; exact ⟨[], by simp [addSubtasksGo]⟩
  | cons hd tl ih =>
    intro ctx
    obtain ⟨i, item⟩ := hd
    obtain ⟨tail, htail⟩ := ih (ctx ++ [mkPlannedSubtask idMap planItems ctx i item])
    refine ⟨mkPlannedSubtask idMap planItems ctx i item :: tail, ?_⟩
    rw [addSubtasksGo, htail]
    simp

theorem applyReviewDecisions_attemptsMono (maxAttempts : Nat) :
    ∀ (ds : List ReviewDecision) (st : List Subtask),
      AttemptsMono st (applyReviewDecisions maxAttempts st ds) := by
  intro ds
  induction ds with
  | nil => intro st; simpa [applyReviewDecisions] using attemptsMono_refl st
  | cons d ds ih =>
    intro st
    have h1 :
        AttemptsMono st
          (updateFirst (fun t => decide (t.id = d.subtaskId))
            (applyDecisionSubtask maxAttempts d) st) :=
      updateFirst_attemptsMono (applyDecisionSubtask_attempts_le maxAttempts d) st
    have hfold :
        applyReviewDecisions maxAttempts st (d :: ds) =
          applyReviewDecisions maxAttempts
            (updateFirst (fun t => decide (t.id = d.subtaskId))
              (applyDecisionSubtask maxAttempts d) st) ds := by
      simp [applyReviewDecisions]
    rw [hfold]
    exact attemptsMono_trans h1 (ih _)

theorem applyTaskOp_attemptsMono (maxAttempts : Nat) (st : List Subtask) (op : TaskOp) :
    AttemptsMono st (applyTaskOp maxAttempts st op) := by
  cases op with
  | plan idMap items =>
    intro n x hx
    obtain ⟨tail, htail⟩ := addSubtasksGo_append idMap items items.enum st
    refine ⟨x, ?_, le_refl _⟩
    have hb : n < st.length := by
      by_contra hb
      rw [List.get?_eq_none.mpr (Nat.le_of_not_lt hb)] at hx
      cases hx
    show (addSubtasksFromPlan idMap st items).get? n = some x
    unfold addSubtasksFromPlan
    rw [htail, List.get?_append hb]
    exact hx
  | work r => exact updateFirst_attemptsMono (applyWorkerResultSubtask_attempts_le maxAttempts r) st
  | review ds => exact applyReviewDecisions_attemptsMono maxAttempts ds st

/-- C3 (amended): every task-manager operation leaves each subtask's attempts counter
monotonically non-decreasing, and once a subtask has attempts at or above
`MAX_SUBTASK_ATTEMPTS`, a worker-failure transition or a revise decision stores
status failed instead of pending. The reassign clause of the original claim is false:
reassign moves the subtask back to pending with no cap check (see the counterexample). -/
theorem C3_attempts_monotone_and_cap (maxAttempts : Nat) :
    (∀ st op, AttemptsMono st (applyTaskOp maxAttempts st op)) ∧
    (∀ r x, r.status = WorkerStatus.failed → maxAttempts ≤ x.attempts →
      (applyWorkerResultSubtask maxAttempts r x).status = SubtaskStatus.failed) ∧
    (∀ d x, d.verdict = Verdict.revise → maxAttempts ≤ x.attempts →
      (applyDecisionSubtask maxAttempts d x).status = SubtaskStatus.failed) := by
  refine ⟨fun st op => applyTaskOp_attemptsMono maxAttempts st op, ?_, ?_⟩
  · intro r x hr hx
    unfold applyWorkerResultSubtask
    dsimp only
    rw [if_neg (by simp [hr])]
    split
    · rfl
    · rename_i hcap
      have hcap' : ¬ (maxAttempts ≤ x.attempts + 1) := hcap
      exact (by omega : False).elim
  · intro d x hd hx
    unfold applyDecisionSubtask
    rw [hd]
    split
    · rename_i heq
      exact absurd heq (by decide)
    · dsimp only
      split
      · rfl
      · rename_i hcap
        have hcap' : ¬ (maxAttempts ≤ x.attempts + 1) := hcap
        exact (by omega : False).elim
    · rename_i heq
      exact absurd heq (by decide)

/-- Witness: the amended C3 theorem applied at concrete inputs (a failed worker result
and a revise decision hitting a subtask already at the attempts cap). -/
theorem C3_attempts_monotone_and_cap_witness :
    (applyWorkerResultSubtask 3 cexWorkFail cexFailedSub).status = SubtaskStatus.failed ∧
      (applyDecisionSubtask 3 cexRevise cexFailedSub).status = SubtaskStatus.failed :=
  ⟨(C3_attempts_monotone_and_cap 3).2.1 cexWorkFail cexFailedSub rfl (by decide),
   (C3_attempts_monotone_and_cap 3).2.2 cexRevise cexFailedSub rfl (by decide)⟩

/-- Counterexample to C3 as stated: a reassign decision moves a subtask whose attempts
already reached `MAX_SUBTASK_ATTEMPTS` (status failed) back to pending, not to failed. -/
theorem C3_reassign_cap_counterexample :
    ∃ s ∈ applyReviewDecisions 3 [cexFailedSub] [cexReassign],
      3 ≤ s.attempts ∧ s.status = SubtaskStatus.pending := by
  decide

end Swarm

namespace Swarm

theorem fixInterrupted_encode (s : Subtask) :
    fixInterrupted (encodeSubtask s) =
      encodeSubtask
        (if s.status = SubtaskStatus.in_progress then
          { s with status := SubtaskStatus.pending }
        else s) := by
  cases s with
  | mk id title description dependencies assignedWorker status result artifacts attempts
      feedback => cases status <;> rfl

/-- C8: loading the checkpoint written by `saveCheckpoint` returns the saved subtasks
field-for-field, except that any subtask saved with status in_progress comes back with
status pending; a checkpoint file that is absent or whose contents fail to parse loads
as the nothing value (null). -/
theorem C8_checkpoint_roundtrip (ctx : ProjectContext) (savedAt : String) :
    loadCheckpoint (some (saveCheckpoint ctx savedAt)) =
      some { id := ctx.id, rootDir := ctx.rootDir, taskDescription := ctx.taskDescription
             subtasks := ctx.subtasks.map fun s =>
               encodeSubtask
                 (if s.status = SubtaskStatus.in_progress then
                   { s with status := SubtaskStatus.pending }
                 else s)
             orchestratorMessages := [] } ∧
    loadCheckpoint none = none := by
  constructor
  · unfold loadCheckpoint saveCheckpoint
    dsimp only
    rw [List.map_map]
    have hf :
        fixInterrupted ∘ encodeSubtask =
          fun s =>
            encodeSubtask
              (if s.status = SubtaskStatus.in_progress then
                { s with status := SubtaskStatus.pending }
              else s) :=
      funext fixInterrupted_encode
    rw [hf]
  · rfl

end Swarm

namespace Swarm

theorem splitAtChar_eq_none {a : Char} :
    ∀ {l : List Char}, a ∉ l → splitAtChar a l = none := by
  intro l
  induction l with
  | nil => intro _; rfl
  | cons c rest ih =>
    intro h
    rw [splitAtChar]
    have hca : ¬ (c == a) = true := by
      simp only [beq_iff_eq]
      intro hca
      exact h (by rw [← hca]; exact List.mem_cons_self c rest)
    rw [if_neg hca]
    exact ih fun hr => h (List.mem_cons_of_mem _ hr)

theorem splitAtChar_append {a : Char} :
    ∀ {p : List Char}, a ∉ p → ∀ (cs : List Char),
      splitAtChar a (p ++ cs) = splitAtChar a cs := by
  intro p
  induction p with
  | nil => intro _ cs; rfl
  | cons c rest ih =>
    intro h cs
    rw [List.cons_append, splitAtChar]
    have hca : ¬ (c == a) = true := by
      simp only [beq_iff_eq]
      intro hca
      exact h (by rw [← hca]; exact List.mem_cons_self c rest)
    rw [if_neg hca]
    exact ih (fun hr => h (List.mem_cons_of_mem _ hr)) cs

theorem splitAtChar_cons_self (a : Char) (rest : List Char) :
    splitAtChar a (a :: rest) = some (a :: rest) := by
  rw [splitAtChar, if_pos (by simp)]

theorem splitAtChar_head {a : Char} :
    ∀ {l m : List Char}, splitAtChar a l = some m → ∃ t, m = a :: t := by
  intro l
  induction l with
  | nil => intro m h; cases h
  | cons c rest ih =>
    intro m h
    rw [splitAtChar] at h
    by_cases hca : (c == a) = true
    · rw [if_pos hca] at h
      injection h with h2
      have hc : c = a := by simpa using hca
      exact ⟨rest, by rw [← h2, hc]⟩
    · rw [if_neg hca] at h
      exact ih h

theorem scanBlock_append {o c : Char} :
    ∀ {xs : List Char} {d : Int} {i e : Bool} {b : List Char},
      scanBlock o c xs d i e = some b → ∀ ys, scanBlock o c (xs ++ ys) d i e = some b := by
  intro xs
  induction xs with
  | nil => intro d i e b h ys; rw [scanBlock] at h; cases h
  | cons x rest ih =>
    intro d i e b h ys
    rw [List.cons_append]
    rw [scanBlock] at h ⊢
    split_ifs at h ⊢ <;>
      first
        | (obtain ⟨b0, hb0, rfl⟩ := Option.map_eq_some'.mp h
           rw [ih hb0 ys]
           rfl)
        | exact h

theorem scanBlock_head {o c x : Char} {rest b : List Char} {d : Int} {i e : Bool}
    (h : scanBlock o c (x :: rest) d i e = some b) : ∃ t, b = x :: t := by
  rw [scanBlock] at h
  split_ifs at h <;>
    first
      | (obtain ⟨b0, _, rfl⟩ := Option.map_eq_some'.mp h; exact ⟨b0, rfl⟩)
      | (injection h with h2; exact ⟨[], h2.symm⟩)

theorem startsWithTicks_false {x : Char} (hx : x ≠ backtickChar) (rest : List Char) :
    startsWithTicks (x :: rest) = false := by
  cases rest with
  | nil => rfl
  | cons b t =>
    cases t with
    | nil => rfl
    | cons c2 t2 =>
      unfold startsWithTicks
      simp [hx]

theorem splitAfterTicks_eq_none :
    ∀ {l : List Char}, backtickChar ∉ l → splitAfterTicks l = none := by
  intro l
  induction l with
  | nil => intro _; rfl
  | cons c rest ih =>
    intro h
    have hc : c ≠ backtickChar := fun hc => h (by rw [← hc]; exact List.mem_cons_self c rest)
    rw [splitAfterTicks]
    rw [startsWithTicks_false hc rest]
    simp only [Bool.false_eq_true, if_false]
    exact ih fun hr => h (List.mem_cons_of_mem _ hr)

theorem jsFenceMatch_eq_none {l : List Char} (h : backtickChar ∉ l) : jsFenceMatch l = none := by
  unfold jsFenceMatch
  rw [splitAfterTicks_eq_none h]

theorem mem_dropWhile_of_mem {pr : Char → Bool} :
    ∀ {l : List Char} {c : Char}, c ∈ l → pr c = false → c ∈ l.dropWhile pr := by
  intro l
  induction l with
  | nil => intro c h _; cases h
  | cons a rest ih =>
    intro c h hc
    rcases List.mem_cons.mp h with rfl | h
    · rw [List.dropWhile_cons, hc]
      simp
    · rw [List.dropWhile_cons]
      by_cases hpa : pr a = true
      · simpa [hpa] using ih h hc
      · simp only [hpa, if_false]
        exact List.mem_cons_of_mem _ h

theorem trimChars_ne_nil {l : List Char} {c : Char} (hc : c ∈ l) (hw : jsWsChar c = false) :
    trimChars l ≠ [] := by
  unfold trimChars
  intro h
  have h1 : c ∈ l.dropWhile jsWsChar := mem_dropWhile_of_mem hc hw
  have h2 : c ∈ (l.dropWhile jsWsChar).reverse := List.mem_reverse.mpr h1
  have h3 : c ∈ (l.dropWhile jsWsChar).reverse.dropWhile jsWsChar := mem_dropWhile_of_mem h2 hw
  have h4 : c ∈ ((l.dropWhile jsWsChar).reverse.dropWhile jsWsChar).reverse :=
    List.mem_reverse.mpr h3
  rw [h] at h4
  cases h4

end Swarm

namespace Swarm

theorem scanBlock_of_extract_self_obj {s1 : List Char}
    (hbal : extractJsonBlock ('{' :: s1) = some ('{' :: s1)) :
    scanBlock '{' '}' ('{' :: s1) 0 false false = some ('{' :: s1) := by
  unfold extractJsonBlock extractFrom at hbal
  rw [splitAtChar_cons_self] at hbal
  dsimp only at hbal
  cases hres : scanBlock '{' '}' ('{' :: s1) 0 false false with
  | some b =>
    rw [hres] at hbal
    simpa using hbal
  | none =>
    rw [hres] at hbal
    exfalso
    cases hsq : splitAtChar '[' ('{' :: s1) with
    | none => rw [hsq] at hbal; cases hbal
    | some m =>
      rw [hsq] at hbal
      obtain ⟨t, rfl⟩ := splitAtChar_head hsq
      obtain ⟨t2, ht2⟩ := scanBlock_head hbal
      injection ht2 with h1 h2
      exact absurd h1 (by decide)

theorem scanBlock_of_extract_self_arr {s1 : List Char}
    (hnos : '{' ∉ '[' :: s1)
    (hbal : extractJsonBlock ('[' :: s1) = some ('[' :: s1)) :
    scanBlock '[' ']' ('[' :: s1) 0 false false = some ('[' :: s1) := by
  unfold extractJsonBlock extractFrom at hbal
  rw [splitAtChar_eq_none hnos] at hbal
  rw [splitAtChar_cons_self] at hbal
  dsimp only at hbal
  exact hbal

/-- C9 (amended): write `whole` for the concatenation prelude, newline, `s`, newline,
postlude. Provided that (a) `whole` itself is not valid JSON (the original claim's
"non-JSON prelude and postlude"), (b) no backtick occurs anywhere (else the fence
strategy can fire on backticks inside `s`), (c) the prelude contains no brace or
bracket (else an earlier balanced block shadows `s`, see the counterexample), and
(d) `s` is a balanced brace block per the extractor's own scanner — or a balanced
bracket block such that no brace occurs in `s` or the postlude (the extractor tries
the brace pair first, anywhere in the text) — the salvager applied to `whole` returns
exactly the value of parsing `s`. -/
theorem C9_salvager_prefix_suffix (p s q : List Char) (v : Json)
    (hv : jsonParse s = some v)
    (hbal : extractJsonBlock s = some s)
    (hshape : (∃ s1, s = '{' :: s1) ∨ ((∃ s1, s = '[' :: s1) ∧ '{' ∉ s ∧ '{' ∉ q))
    (hp1 : '{' ∉ p) (hp2 : '[' ∉ p)
    (hticks : backtickChar ∉ p ++ '\n' :: (s ++ '\n' :: q))
    (hwhole : jsonParse (trimChars (p ++ '\n' :: (s ++ '\n' :: q))) = none) :
    parseJSON (p ++ '\n' :: (s ++ '\n' :: q)) = some v := by
  have hfence : jsFenceMatch (p ++ '\n' :: (s ++ '\n' :: q)) = none :=
    jsFenceMatch_eq_none hticks
  have hrearr : p ++ '\n' :: (s ++ '\n' :: q) = (p ++ ['\n']) ++ (s ++ '\n' :: q) := by
    simp
  have hextract : extractJsonBlock (p ++ '\n' :: (s ++ '\n' :: q)) = some s := by
    rcases hshape with ⟨s1, hs⟩ | ⟨⟨s1, hs⟩, hnos, hnoq⟩
    · have hnopre : '{' ∉ p ++ ['\n'] := by
        intro h
        rcases List.mem_append.mp h with h | h
        · exact hp1 h
        · simp at h
      have hscan := scanBlock_of_extract_self_obj (hs ▸ hbal)
      unfold extractJsonBlock extractFrom
      rw [hrearr, splitAtChar_append hnopre, hs, List.cons_append, splitAtChar_cons_self]
      have hscan2 :
          scanBlock '{' '}' ('{' :: (s1 ++ '\n' :: q)) 0 false false = some ('{' :: s1) := by
        have := scanBlock_append hscan ('\n' :: q)
        rw [List.cons_append] at this
        exact this
      dsimp only
      rw [hscan2]
    · have hnowhole : '{' ∉ p ++ '\n' :: (s ++ '\n' :: q) := by
        intro h
        rcases List.mem_append.mp h with h | h
        · exact hp1 h
        · rcases List.mem_cons.mp h with h | h
          · exact absurd h (by decide)
          · rcases List.mem_append.mp h with h | h
            · exact hnos (hs ▸ h)
            · rcases List.mem_cons.mp h with h | h
              · exact absurd h (by decide)
              · exact hnoq h
      have hnopre : '[' ∉ p ++ ['\n'] := by
        intro h
        rcases List.mem_append.mp h with h | h
        · exact hp2 h
        · simp at h
      have hscan := scanBlock_of_extract_self_arr (hs ▸ hnos) (hs ▸ hbal)
      unfold extractJsonBlock extractFrom
      rw [splitAtChar_eq_none hnowhole]
      rw [hrearr, splitAtChar_append hnopre, hs, List.cons_append, splitAtChar_cons_self]
      have hscan2 :
          scanBlock '[' ']' ('[' :: (s1 ++ '\n' :: q)) 0 false false = some ('[' :: s1) := by
        have := scanBlock_append hscan ('\n' :: q)
        rw [List.cons_append] at this
        exact this
      dsimp only
      rw [hscan2]
  have hc0 : ∃ c0, c0 ∈ p ++ '\n' :: (s ++ '\n' :: q) ∧ jsWsChar c0 = false := by
    rcases hshape with ⟨s1, hs⟩ | ⟨⟨s1, hs⟩, _, _⟩
    · exact ⟨'{', by rw [hs]; simp, by decide⟩
    · exact ⟨'[', by rw [hs]; simp, by decide⟩
  obtain ⟨c0, hc0m, hc0w⟩ := hc0
  have htrim := trimChars_ne_nil hc0m hc0w
  unfold parseJSON
  rw [if_neg htrim]
  simp only [hwhole, hfence, hextract, hv]

/-- Witness: the amended salvager law at a concrete prelude, object block and
postlude. -/
theorem C9_salvager_prefix_suffix_witness :
    parseJSON ("note".toList ++ '\n' :: ("\x7b\x7d".toList ++ '\n' :: "done".toList)) =
      some (Json.obj []) :=
  C9_salvager_prefix_suffix "note".toList "\x7b\x7d".toList "done".toList (Json.obj [])
    (by rfl) (by rfl) (Or.inl ⟨"\x7d".toList, by rfl⟩) (by decide) (by decide) (by decide)
    (by rfl)

/-- Counterexample to C9 as stated: the prelude "a" followed by an empty brace pair is
non-JSON text, and s = "[1]" is a balanced bracket block, yet the salvager applied to
the concatenation returns the empty object extracted from the prelude's braces rather
than the array parsed from s. -/
theorem C9_salvager_counterexample :
    parseJSON ("a\x7b\x7d".toList ++ '\n' :: ("[1]".toList ++ '\n' :: [])) =
        some (Json.obj []) ∧
      jsonParse "[1]".toList = some (Json.arr [Json.num "1"]) ∧
      jsonParse (trimChars "a\x7b\x7d".toList) = none ∧
      extractJsonBlock "[1]".toList = some "[1]".toList ∧
      Json.obj [] ≠ Json.arr [Json.num "1"] :=
  ⟨by rfl, by rfl, by rfl, by rfl, fun h => Json.noConfusion h⟩

end Swarm

namespace Swarm

/-- C10: `executeTool` is total at its interface: an argument string that fails JSON
parsing yields an "Error:"-prefixed result with the artifacts list unchanged, and a
tool name outside the twelve catalogued worker tools likewise yields an
"Error:"-prefixed result with the artifacts list unchanged; neither case throws. -/
theorem C10_executeTool_total (impls : ToolImpls) (toolCall : ToolCall)
    (projectRoot : String) (artifacts : List String) (workerIndex : Option Nat) :
    (jsonParse toolCall.arguments.toList = none →
      executeTool impls toolCall projectRoot artifacts workerIndex =
        ("Error: Failed to parse tool arguments: " ++ toolCall.arguments, artifacts) ∧
      ∃ t, (executeTool impls toolCall projectRoot artifacts workerIndex).1 = "Error:" ++ t) ∧
    (toolCall.name ∉ workerToolNames →
      (∃ t, (executeTool impls toolCall projectRoot artifacts workerIndex).1 = "Error:" ++ t) ∧
      (executeTool impls toolCall projectRoot artifacts workerIndex).2 = artifacts) := by
  constructor
  · intro h
    unfold executeTool
    rw [h]
    exact ⟨rfl, ⟨" Failed to parse tool arguments: " ++ toolCall.arguments, rfl⟩⟩
  · intro h
    simp only [workerToolNames, List.mem_cons, List.not_mem_nil, or_false, not_or] at h
    obtain ⟨h1, h2, h3, h4, h5, h6, h7, h8, h9, h10, h11, h12⟩ := h
    unfold executeTool
    cases hargs : jsonParse toolCall.arguments.toList with
    | none =>
      exact ⟨⟨" Failed to parse tool arguments: " ++ toolCall.arguments, rfl⟩, rfl⟩
    | some args =>
      dsimp only
      rw [if_neg h1, if_neg h2, if_neg h3, if_neg h4, if_neg h5, if_neg h6, if_neg h7,
        if_neg h8, if_neg h9, if_neg h10, if_neg h11, if_neg h12]
      exact ⟨⟨" Unknown tool \"" ++ toolCall.name ++ "\"", rfl⟩, rfl⟩

/-- Witness: the totality theorem at a malformed-arguments call and at an unknown-name
call, with do-nothing tool implementations. -/
theorem C10_executeTool_total_witness :
    executeTool trivialToolImpls cexBadArgsCall "/root" ["a.txt"] none =
        ("Error: Failed to parse tool arguments: not json", ["a.txt"]) ∧
      (executeTool trivialToolImpls cexUnknownCall "/root" ["a.txt"] none).2 = ["a.txt"] :=
  ⟨((C10_executeTool_total trivialToolImpls cexBadArgsCall "/root" ["a.txt"] none).1 (by rfl)).1,
   ((C10_executeTool_total trivialToolImpls cexUnknownCall "/root" ["a.txt"] none).2
      (by decide)).2⟩

end Swarm

namespace Swarm

theorem countEv_nil (ev : LlmEvent) : countEv ev [] = 0 := rfl

theorem countEv_cons (ev x : LlmEvent) (l : List LlmEvent) :
    countEv ev (x :: l) = (if x = ev then 1 else 0) + countEv ev l := by
  unfold countEv
  rw [List.filter_cons]
  by_cases h : x = ev
  · simp [h, Nat.add_comm]
  · simp [h]

theorem chatAttempts_spec (outcomes : Nat → Except LlmErr α) (jitter : Nat → Nat) :
    ∀ (fuel attempt : Nat) (lastError : Option LlmErr),
      countEv LlmEvent.acquire (chatAttempts outcomes jitter attempt fuel lastError).1 =
        countEv LlmEvent.release (chatAttempts outcomes jitter attempt fuel lastError).1 ∧
      countEv LlmEvent.acquire (chatAttempts outcomes jitter attempt fuel lastError).1 ≤ fuel ∧
      (∀ a m d,
        LlmEvent.retryEmit a m d ∈ (chatAttempts outcomes jitter attempt fuel lastError).1 →
        m = MAX_RETRIES ∧ attempt + 1 ≤ a ∧ a ≤ MAX_RETRIES ∧
        (∃ e, outcomes (a - 1) = Except.error e ∧ isRetryable e = true) ∧
        d = getRetryDelay jitter (a - 1)) ∧
      (∀ d, LlmEvent.sleep d ∈ (chatAttempts outcomes jitter attempt fuel lastError).1 →
        ∃ a, [LlmEvent.retryEmit a MAX_RETRIES d, LlmEvent.sleep d]
          <:+: (chatAttempts outcomes jitter attempt fuel lastError).1) := by
  intro fuel
  induction fuel with
  | zero =>
    intro attempt lastError
    refine ⟨rfl, Nat.le_refl _, ?_, ?_⟩
    · intro a m d hmem
      simp [chatAttempts] at hmem
    · intro d hmem
      simp [chatAttempts] at hmem
  | succ fuel ih =>
    intro attempt lastError
    rw [chatAttempts]
    cases hout : outcomes attempt with
    | ok r =>
      dsimp only
      refine ⟨rfl, Nat.succ_le_succ (Nat.zero_le fuel), ?_, ?_⟩
      · intro a m d hmem
        simp at hmem
      · intro d hmem
        simp at hmem
    | error e =>
      dsimp only
      split
      · rename_i hcond
        rw [Bool.and_eq_true, decide_eq_true_eq] at hcond
        obtain ⟨ih1, ih2, ih3, ih4⟩ := ih (attempt + 1) (some e)
        dsimp only
        refine ⟨?_, ?_, ?_, ?_⟩
        · simp only [countEv_cons]
          simp only [reduceCtorEq, if_false, eq_self_iff_true, if_true]
          omega
        · simp only [countEv_cons]
          simp only [reduceCtorEq, if_false, eq_self_iff_true, if_true]
          omega
        · intro a m d hmem
          simp only [List.mem_cons] at hmem
          rcases hmem with h | h | h | h | h
        
          · exact absurd h (by simp)
          · rw [LlmEvent.retryEmit.injEq] at h
            obtain ⟨rfl, rfl, rfl⟩ := h
            refine ⟨rfl, Nat.le_refl _, Nat.succ_le_of_lt hcond.1, ⟨e, ?_, hcond.2⟩, ?_⟩
            · simpa using hout
            · simp
          · exact absurd h (by simp)
          · exact absurd h (by simp)
          · obtain ⟨hm, hle, hub, hex, hd⟩ := ih3 a m d h
            exact ⟨hm, by omega, hub, hex, hd⟩
        · intro d hmem
          simp only [List.mem_cons] at hmem
          rcases hmem with h | h | h | h | h
          · exact absurd h (by simp)
          · exact absurd h (by simp)
          · rw [LlmEvent.sleep.injEq] at h
            subst h
            refine ⟨attempt + 1, [LlmEvent.acquire],
              LlmEvent.release :: (chatAttempts outcomes jitter (attempt + 1) fuel (some e)).1,
              by simp⟩
          · exact absurd h (by simp)
          · obtain ⟨a, s, t, hst⟩ := ih4 d h
            exact ⟨a, LlmEvent.acquire ::
              LlmEvent.retryEmit (attempt + 1) MAX_RETRIES (getRetryDelay jitter attempt) ::
              LlmEvent.sleep (getRetryDelay jitter attempt) :: LlmEvent.release :: s, t,
              by simp [hst]⟩
      · dsimp only
        refine ⟨rfl, Nat.succ_le_succ (Nat.zero_le fuel), ?_, ?_⟩
        · intro a m d hmem
          simp at hmem
        · intro d hmem
          simp at hmem

/-- C6: both `chatCompletion` and `chatCompletionStream` run the same retry loop; a
call makes at most 4 attempts (3 retries after the first) and releases the rate
limiter exactly once per acquisition, i.e. on every exit path; a non-retryable first
error propagates immediately after a single attempt; every `llm:retry` emission
belongs to a retryable error (HTTP 429, 5xx, or a connection-family code) below the
budget of 3, and carries the delay `1000 * 2^n` plus the jitter for attempt `n`,
which lies in `[1000 * 2^n, 1000 * 2^n + 500)`; and every sleep is immediately
preceded by its `llm:retry` emission. -/
theorem C6_transport_retry_policy (outcomes : Nat → Except LlmErr Nat) (jitter : Nat → Nat)
    (hj : ∀ n, jitter n < 500) :
    chatCompletionStream outcomes jitter = chatCompletion outcomes jitter ∧
    countEv LlmEvent.acquire (chatCompletion outcomes jitter).1 ≤ 4 ∧
    countEv LlmEvent.acquire (chatCompletion outcomes jitter).1 =
      countEv LlmEvent.release (chatCompletion outcomes jitter).1 ∧
    (∀ e, outcomes 0 = Except.error e → isRetryable e = false →
      chatCompletion outcomes jitter =
        ([LlmEvent.acquire, LlmEvent.release], Except.error e)) ∧
    (∀ a m d, LlmEvent.retryEmit a m d ∈ (chatCompletion outcomes jitter).1 →
      m = 3 ∧ 1 ≤ a ∧ a ≤ 3 ∧
      (∃ e, outcomes (a - 1) = Except.error e ∧ isRetryable e = true) ∧
      d = 1000 * 2 ^ (a - 1) + jitter (a - 1) ∧
      1000 * 2 ^ (a - 1) ≤ d ∧ d < 1000 * 2 ^ (a - 1) + 500) ∧
    (∀ d, LlmEvent.sleep d ∈ (chatCompletion outcomes jitter).1 →
      ∃ a, [LlmEvent.retryEmit a 3 d, LlmEvent.sleep d] <:+: (chatCompletion outcomes jitter).1) := by
  obtain ⟨h1, h2, h3, h4⟩ := chatAttempts_spec outcomes jitter (MAX_RETRIES + 1) 0 none
  refine ⟨rfl, h2, h1, ?_, ?_, h4⟩
  · intro e hout hnr
    unfold chatCompletion
    rw [chatAttempts, hout]
    dsimp only
    rw [if_neg (by simp [hnr])]
  · intro a m d hmem
    obtain ⟨hm, hge, hub, hex, hd⟩ := h3 a m d hmem
    refine ⟨hm, hge, hub, hex, hd, ?_, ?_⟩
    · rw [hd]; exact Nat.le_add_right _ _
    · rw [hd]; exact Nat.add_lt_add_left (hj (a - 1)) _

/-- Witness: the retry-policy theorem at an environment whose every attempt throws a
connection reset, with a fixed jitter of 7 ms. -/
theorem C6_transport_retry_policy_witness :
    chatCompletionStream cexOutcomes cexJitter = chatCompletion cexOutcomes cexJitter ∧
      countEv LlmEvent.acquire (chatCompletion cexOutcomes cexJitter).1 ≤ 4 :=
  ⟨(C6_transport_retry_policy cexOutcomes cexJitter (fun _ => (by decide : (7 : Nat) < 500))).1,
   (C6_transport_retry_policy cexOutcomes cexJitter
      (fun _ => (by decide : (7 : Nat) < 500))).2.1⟩

end Swarm

namespace Swarm

theorem length_dropWhile_le_local (p : Nat → Bool) (l : List Nat) :
    (l.dropWhile p).length ≤ l.length := by
  induction l with
  | nil => exact Nat.le_refl _
  | cons x xs ih =>
    rw [List.dropWhile_cons]
    by_cases h : p x = true
    · simp only [h, if_true]
      exact Nat.le_succ_of_le ih
    · simp only [h, if_false]
      exact Nat.le_refl _

theorem pruneOld_length_le (clock : Nat) (ts : List Nat) :
    (pruneOld clock ts).length ≤ ts.length :=
  length_dropWhile_le_local _ ts

theorem hourlySegment_window {cfg : RLConfig} {st : RLState} (pid : Nat)
    (h : st.callTimestamps.length ≤ cfg.maxPerHour) :
    (hourlySegment cfg st pid).callTimestamps.length ≤ cfg.maxPerHour := by
  unfold hourlySegment
  dsimp only
  split
  · split <;>
      exact le_trans (pruneOld_length_le st.clock st.callTimestamps) h
  · rename_i hlen
    rw [List.length_append]
    simp only [List.length_singleton]
    omega

theorem concSegment_window {cfg : RLConfig} {st : RLState} (pid : Nat)
    (h : st.callTimestamps.length ≤ cfg.maxPerHour) :
    (concSegment cfg st pid).callTimestamps.length ≤ cfg.maxPerHour := by
  unfold concSegment
  split
  · exact h
  · exact hourlySegment_window pid h

theorem rlStep_window {cfg : RLConfig} {st : RLState} (step : RLStep)
    (h : st.callTimestamps.length ≤ cfg.maxPerHour) :
    (rlStep cfg st step).callTimestamps.length ≤ cfg.maxPerHour := by
  cases step with
  | tick ms => exact h
  | start pid =>
    simp only [rlStep]
    split
    · exact concSegment_window pid h
    · exact h
  | resume pid =>
    simp only [rlStep]
    split
    · exact concSegment_window pid h
    · exact h
  | wake pid =>
    simp only [rlStep]
    cases st.phases.getD pid RLPhase.idle with
    | sleepingHourly w =>
      dsimp only
      split
      · exact hourlySegment_window pid h
      · exact h
    | idle => exact h
    | waitingConc => exact h
    | wokenConc => exact h
    | admitted => exact h
  | release =>
    simp only [rlStep]
    unfold releaseOp
    dsimp only
    split <;> exact h

theorem rlRun_window (cfg : RLConfig) (n : Nat) :
    ∀ (steps : List RLStep) (st : RLState), st.callTimestamps.length ≤ cfg.maxPerHour →
      (steps.foldl (rlStep cfg) st).callTimestamps.length ≤ cfg.maxPerHour := by
  intro steps
  induction steps with
  | nil => intro st h; exact h
  | cons s rest ih =>
    intro st h
    exact ih _ (rlStep_window s h)

theorem getD_set_self : ∀ (l : List RLPhase) (i : Nat), i < l.length → ∀ (a : RLPhase),
    (l.set i a).getD i RLPhase.idle = a := by
  intro l
  induction l with
  | nil => intro i h; simp at h
  | cons x xs ih =>
    intro i h a
    cases i with
    | zero => rfl
    | succ i => exact ih i (by simpa using h) a

/-- C5 (amended): for every configuration and every schedule of acquire segments,
queue resumptions, timer wakes and releases, the limiter's recorded timestamp list
never exceeds `maxPerHour` entries — hence the acquisition timestamps inside the
rolling 3,600,000 ms window never exceed `maxPerHour` — and a waiter woken from the
concurrency queue does re-check the concurrency bound and is re-parked while the
active count is still at the limit. The claim's concurrency half is false on the
code: a waiter woken from the hourly sleep resumes at the hourly check only, without
re-checking the concurrency bound, so the active count can exceed `maxConcurrent`
(see the counterexample). -/
theorem C5_rate_limiter_window_invariant (cfg : RLConfig) (n : Nat) (steps : List RLStep) :
    (rlRun cfg n steps).callTimestamps.length ≤ cfg.maxPerHour ∧
    ((rlRun cfg n steps).callTimestamps.filter
        fun t => decide ((rlRun cfg n steps).clock - 3600000 ≤ t)).length ≤ cfg.maxPerHour ∧
    (∀ st pid, pid < st.phases.length →
      st.phases.getD pid RLPhase.idle = RLPhase.wokenConc →
      (cfg.maxConcurrent : Int) ≤ st.activeCount →
      (rlStep cfg st (RLStep.resume pid)).phases.getD pid RLPhase.idle =
        RLPhase.waitingConc) := by
  have hlen : (rlRun cfg n steps).callTimestamps.length ≤ cfg.maxPerHour := by
    unfold rlRun
    exact rlRun_window cfg n steps (rlInit n) (by simp [rlInit])
  refine ⟨hlen, le_trans (List.length_filter_le _ _) hlen, ?_⟩
  intro st pid hpid hph hact
  simp only [rlStep]
  rw [if_pos hph]
  unfold concSegment
  rw [if_pos hact]
  dsimp only
  exact getD_set_self st.phases pid hpid RLPhase.waitingConc

/-- Witness: the window bound on the counterexample schedule, and the queue-waiter
recheck on a concrete saturated state. -/
theorem C5_rate_limiter_window_invariant_witness :
    (rlRun { maxConcurrent := 1, maxPerHour := 2 } 4 cexRLSchedule).callTimestamps.length ≤ 2 ∧
      (rlStep { maxConcurrent := 1, maxPerHour := 2 } cexWokenState
          (RLStep.resume 0)).phases.getD 0 RLPhase.idle = RLPhase.waitingConc :=
  ⟨(C5_rate_limiter_window_invariant { maxConcurrent := 1, maxPerHour := 2 } 4 cexRLSchedule).1,
   (C5_rate_limiter_window_invariant { maxConcurrent := 1, maxPerHour := 2 } 4
      cexRLSchedule).2.2 cexWokenState 0 (by decide) (by decide) (by decide)⟩

/-- Counterexample to C5 as stated: after the schedule `cexRLSchedule` with
`maxConcurrent = 1` and `maxPerHour = 2`, the active in-flight count reaches 2 > 1,
because the two hourly sleepers were admitted without re-checking the concurrency
bound on waking. -/
theorem C5_rate_limiter_counterexample :
    (rlRun { maxConcurrent := 1, maxPerHour := 2 } 4 cexRLSchedule).activeCount = 2 ∧
      (1 : Int) < 2 := by
  constructor
  · decide
  · decide

end Swarm

namespace Swarm

/-- C4: within the worker loop, a tool call whose execution throws is retried exactly
once, transparently — the first call's success needs no retry, and a successful
retry's result is used as if it were the first; when the retry throws as well, the
error text is inserted as the tool-role result message instead of the exception
escaping the loop, and processing continues with the remaining tool calls and the
next loop iteration. -/
theorem C4_worker_tool_retry
    (toolExec : Nat → List String → Except String (String × List String))
    (tc : ToolCall) (rest : List ToolCall) (k : Nat) (artifacts : List String)
    (msgs : List WMsg) :
    (∀ r a2, toolExec k artifacts = Except.ok (r, a2) →
      processToolCalls toolExec (tc :: rest) k artifacts msgs =
        processToolCalls toolExec rest (k + 1) a2 (msgs ++ [WMsg.tool tc.id r])) ∧
    (∀ e r a2, toolExec k artifacts = Except.error e →
      toolExec (k + 1) artifacts = Except.ok (r, a2) →
      processToolCalls toolExec (tc :: rest) k artifacts msgs =
        processToolCalls toolExec rest (k + 2) a2 (msgs ++ [WMsg.tool tc.id r])) ∧
    (∀ e e2, toolExec k artifacts = Except.error e →
      toolExec (k + 1) artifacts = Except.error e2 →
      processToolCalls toolExec (tc :: rest) k artifacts msgs =
        processToolCalls toolExec rest (k + 2) artifacts
          (msgs ++ [WMsg.tool tc.id ("Tool execution failed after retry: " ++ e2)])) ∧
    (∀ llm subtaskId maxLoops remaining step am,
      llm step = WLlm.reply am → am.tool_calls ≠ [] →
      runWorkerGo llm toolExec subtaskId maxLoops (remaining + 1) step k artifacts msgs =
        runWorkerGo llm toolExec subtaskId maxLoops remaining (step + 1)
          (processToolCalls toolExec am.tool_calls k artifacts
            (msgs ++ [WMsg.assistant am])).1
          (processToolCalls toolExec am.tool_calls k artifacts
            (msgs ++ [WMsg.assistant am])).2.1
          (processToolCalls toolExec am.tool_calls k artifacts
            (msgs ++ [WMsg.assistant am])).2.2) := by
  refine ⟨?_, ?_, ?_, ?_⟩
  · intro r a2 h
    simp only [processToolCalls, h]
  · intro e r a2 h1 h2
    simp only [processToolCalls, h1, h2]
  · intro e e2 h1 h2
    simp only [processToolCalls, h1, h2]
  · intro llm subtaskId maxLoops remaining step am hllm htc
    conv_lhs => rw [runWorkerGo]
    rw [hllm]
    simp only [if_neg htc]

/-- Witness: the double-failure path of the retry theorem at a concrete environment
whose first two tool invocations throw EBUSY. -/
theorem C4_worker_tool_retry_witness :
    processToolCalls cexToolExec [cexC4Call] 0 [] [] =
      processToolCalls cexToolExec [] 2 []
        ([] ++ [WMsg.tool cexC4Call.id ("Tool execution failed after retry: " ++ "EBUSY")]) :=
  (C4_worker_tool_retry cexToolExec cexC4Call [] 0 [] []).2.2.1 "EBUSY" "EBUSY"
    (by rfl) (by rfl)

theorem askOrchestratorGo_appends (llm : Nat → String) (maxJsonRetries : Nat) :
    ∀ (fuel attempt : Nat) (msgs : List OMsg), 1 ≤ fuel →
      attempt + fuel = maxJsonRetries + 1 →
      ∃ pre content,
        askOrchestratorGo llm maxJsonRetries attempt fuel msgs =
          (pre ++ [OMsg.assistant content], content) := by
  intro fuel
  induction fuel with
  | zero =>
    intro attempt msgs h1 _
    exact absurd h1 (by omega)
  | succ fuel ih =>
    intro attempt msgs _ hsum
    rw [askOrchestratorGo]
    by_cases h1 : attempt < maxJsonRetries ∧ trimChars (llm attempt).toList = []
    · rw [if_pos h1]
      exact ih (attempt + 1) msgs (by omega) (by omega)
    · rw [if_neg h1]
      by_cases h2 : attempt < maxJsonRetries ∧ parseResultFalsy (llm attempt) = true
      · rw [if_pos h2]
        exact ih (attempt + 1) _ (by omega) (by omega)
      · rw [if_neg h2]
        exact ⟨msgs, llm attempt, rfl⟩

/-- C7 (amended): in askOrchestrator, (1) a reply that is nonempty after trimming but
fails JSON parsing (or parses to a JavaScript-falsy value), with retry attempts
remaining, causes the assistant reply plus the reminder user message "Your response
was not valid JSON. Please respond with ONLY valid JSON, no other text." to be
appended and the same conversation retried; (2) an empty reply with retries remaining
is retried silently, with nothing appended; and (3) the returned assistant reply is
always appended to the conversation before the function returns. The claim's quoted
reminder wording does not occur in the code, and the empty-reply path appends no
reminder (see the counterexample). -/
theorem C7_askOrchestrator_retry (llm : Nat → String) (maxJsonRetries attempt fuel : Nat)
    (msgs : List OMsg) :
    (attempt < maxJsonRetries → ¬ trimChars (llm attempt).toList = [] →
      parseResultFalsy (llm attempt) = true →
      askOrchestratorGo llm maxJsonRetries attempt (fuel + 1) msgs =
        askOrchestratorGo llm maxJsonRetries (attempt + 1) fuel
          (msgs ++ [OMsg.assistant (llm attempt), OMsg.user jsonReminder])) ∧
    (attempt < maxJsonRetries → trimChars (llm attempt).toList = [] →
      askOrchestratorGo llm maxJsonRetries attempt (fuel + 1) msgs =
        askOrchestratorGo llm maxJsonRetries (attempt + 1) fuel msgs) ∧
    (∀ userMessage, ∃ pre content,
      askOrchestrator llm maxJsonRetries msgs userMessage =
        (pre ++ [OMsg.assistant content], content)) := by
  refine ⟨?_, ?_, ?_⟩
  · intro h1 h2 h3
    rw [askOrchestratorGo]
    rw [if_neg fun hc => h2 hc.2, if_pos ⟨h1, h3⟩]
  · intro h1 h2
    rw [askOrchestratorGo]
    rw [if_pos ⟨h1, h2⟩]
  · intro userMessage
    exact askOrchestratorGo_appends llm maxJsonRetries (maxJsonRetries + 1) 0 _
      (by omega) (by omega)

/-- Witness: the retry equations at concrete reply sequences (first reply non-JSON,
respectively empty) with the default two extra retries. -/
theorem C7_askOrchestrator_retry_witness :
    askOrchestratorGo cexLlmBadJson 2 0 (2 + 1) [] =
      askOrchestratorGo cexLlmBadJson 2 1 2
        ([] ++ [OMsg.assistant (cexLlmBadJson 0), OMsg.user jsonReminder]) ∧
    askOrchestratorGo cexLlmEmpty 2 0 (2 + 1) [] = askOrchestratorGo cexLlmEmpty 2 1 2 [] :=
  ⟨(C7_askOrchestrator_retry cexLlmBadJson 2 0 2 []).1 (by decide) (by decide) (by rfl),
   (C7_askOrchestrator_retry cexLlmEmpty 2 0 2 []).2.1 (by decide) (by decide)⟩

/-- Counterexample to C7 as stated: on a non-JSON first reply the appended reminder
reads "... Please respond with ONLY valid JSON, no other text.", not the claim's
quoted wording; and an empty first reply is retried with the conversation unchanged,
so no reminder of any wording is appended there. -/
theorem C7_askOrchestrator_counterexample :
    askOrchestrator cexLlmBadJson 2 [] "plan" =
      ([OMsg.user "plan", OMsg.assistant "not json", OMsg.user jsonReminder,
        OMsg.assistant "\x7b\"ok\":true\x7d"], "\x7b\"ok\":true\x7d") ∧
    jsonReminder ≠ claimedReminder ∧
    askOrchestrator cexLlmEmpty 2 [] "plan" =
      ([OMsg.user "plan", OMsg.assistant "\x7b\"ok\":true\x7d"], "\x7b\"ok\":true\x7d") := by
  refine ⟨by rfl, by decide, by rfl⟩

end Swarm
